import Mathlib

/-!
# Body capture and span lifecycle of the tracing instrumentation

A shallow embedding of the stream taps, the content-type classifier, the
response recorders and the span lifecycle of

* `instrumentation/net/http/otelhttp/wrap.go`
* `instrumentation/net/http/otelhttp/transport.go`
* `instrumentation/github.com/gorilla/mux/otelmux/mux.go`
* `instrumentation/github.com/labstack/echo/otelecho/echo.go`
* `instrumentation/github.com/aws/aws-lambda-go/otellambda/wrapHandler.go`

Conventions of the embedding.

* A Go `string` is a Lean `String`; a Go `[]byte` is a `List UInt8`.
* A Go `error` is `Option GoError`, `none` being `nil`.
* A Go `int` is an `Int`; the `int64` counters wrap with `wrapInt64`.
* A pointer receiver that a method mutates becomes explicit state passing:
  the method takes the old record and returns the new one with its results.
* A call into a collaborator outside the repository (the underlying stream,
  the base round tripper, the wrapped handler) is represented by the outcome
  of that call, supplied as an argument.
* Functions of libraries outside the repository (`mime.ParseMediaType`, the
  helios classifier and redactor, `semconv`) are parameters.
* A run-time panic is `none` in an `Option` result.
-/

namespace Otel

/-! ## Go values -/

/-- A Go `error` value. `io.EOF` is the only error the code compares against;
every other error is known by its message. -/
inductive GoError where
  | EOF
  | other (msg : String)
  deriving DecidableEq

/-- The method `Error()` of an error. -/
def GoError.Error : GoError → String
  | .EOF => "EOF"
  | .other msg => msg

/-- The Go conversion to `int64` and the wrap-around of `int64` addition. -/
def wrapInt64 (x : Int) : Int :=
  (x + 2 ^ 63) % 2 ^ 64 - 2 ^ 63

/-- The first `sep` in `s`, on character lists: the text before it and the text
after it, or `none` when `sep` does not occur. -/
def cutChars (sep : List Char) : List Char → Option (List Char × List Char)
  | [] => if sep = [] then some ([], []) else none
  | c :: cs =>
    if sep.isPrefixOf (c :: cs) then some ([], (c :: cs).drop sep.length)
    else (cutChars sep cs).map fun ba => (c :: ba.1, ba.2)

/-- Go `strings.Cut(s, sep)`: `(before, after, found)`; when `sep` does not
occur the result is `(s, "", false)`. -/
def stringsCut (s sep : String) : String × String × Bool :=
  match cutChars sep.data s.data with
  | some (b, a) => (String.mk b, String.mk a, true)
  | none => (s, "", false)

/-- Go `strings.HasPrefix(s, pre)`. -/
def stringsHasPrefix (s pre : String) : Bool :=
  pre.data.isPrefixOf s.data

/-- Go `slices.Contains(xs, x)`. -/
def slicesContains (xs : List String) (x : String) : Bool :=
  xs.contains x

/-- A Go byte slice as a callee sees it: the elements within its length, and
the elements of its backing array between its length and its capacity. -/
structure ByteSlice where
  elems : List UInt8
  spare : List UInt8 := []
  deriving DecidableEq

/-- Go `len(b)`. -/
def ByteSlice.len (b : ByteSlice) : Int := b.elems.length

/-- Go `cap(b)`. -/
def ByteSlice.cap (b : ByteSlice) : Int := b.elems.length + b.spare.length

/-- The Go slice expression `b[0:n]`: the first `n` elements of the backing
array; a run-time panic (`none`) when `n` is negative or beyond the capacity. -/
def ByteSlice.slice0 (b : ByteSlice) (n : Int) : Option (List UInt8) :=
  if 0 ≤ n ∧ n ≤ b.cap then some ((b.elems ++ b.spare).take n.toNat) else none

/-- The outcome of one call `Read(b)` on an underlying `io.Reader`: the buffer
`b` as the call left it, and the `(n, err)` the call returned. -/
structure ReadResult where
  b : ByteSlice
  n : Int
  err : Option GoError
  deriving DecidableEq

/-- The outcome of one call `Write(p)` on an underlying writer: the bytes `p`
handed to it, the `(n, err)` it returned, and the value of the response header
`Content-Type` (`Header().Get("Content-Type")`) at the time the wrapper looks
it up. -/
structure WriteResult where
  p : List UInt8
  n : Int
  err : Option GoError
  contentType : String
  deriving DecidableEq

/-- A call a handler makes on a response writer. -/
inductive WriterOp where
  | write (c : WriteResult)
  | writeHeader (statusCode : Int)
  deriving DecidableEq

/-- The bytes a conforming read delivered: `b[0:n]` within the length of `b`. -/
def ReadResult.bytes (r : ReadResult) : List UInt8 := r.b.elems.take r.n.toNat

/-- The contract of `io.Reader` on a read result: `0 <= n <= len(b)`. -/
def ReadResult.Conforms (r : ReadResult) : Prop := 0 ≤ r.n ∧ r.n ≤ r.b.len

instance (r : ReadResult) : Decidable r.Conforms := by
  unfold ReadResult.Conforms; infer_instance

/-! ## Spans, requests and responses -/

/-- The value of a span attribute: `attribute.StringValue` of a Go string, which
the code builds either from text or from captured bytes (`string(buf)`). -/
inductive AttrValue where
  | text (s : String)
  | bytes (b : List UInt8)
  deriving DecidableEq

/-- The type `attribute.KeyValue`. -/
structure KeyValue where
  Key : String
  Value : AttrValue
  deriving DecidableEq

/-- The status codes of `go.opentelemetry.io/otel/codes`. -/
inductive Code where
  | Unset
  | Error
  | Ok
  deriving DecidableEq

/-- A call the instrumentation makes on a `trace.Span`. -/
inductive SpanEvent where
  | SetAttributes (kv : List KeyValue)
  | RecordError (err : GoError)
  | SetStatus (code : Code) (description : String)
  | End
  deriving DecidableEq

/-- A span, as the calls made on it since `tracer.Start`, oldest first. -/
abbrev Span := List SpanEvent

/-- The number of `End` calls a span has received. -/
def Span.endCalls (s : Span) : Nat := s.count SpanEvent.End

/-- Whether a call on a span sets an attribute with the key `key`. -/
def SpanEvent.setsKey (key : String) : SpanEvent → Bool
  | .SetAttributes kv => kv.any fun a => a.Key == key
  | _ => false

/-- Whether some call on the span has set an attribute with the key `key`. -/
def Span.setsKey (s : Span) (key : String) : Bool := s.any (SpanEvent.setsKey key)

/-- What the code looks at in an `*http.Request`: the method, the header
`Content-type` (`r.Header.Get`), the result of `json.Marshal(r.Header)`
(`none` when marshalling fails) and whether `r.Body` is neither nil nor
`http.NoBody`. -/
structure Request where
  Method : String
  contentType : String
  headersJSON : Option String
  hasBody : Bool
  deriving DecidableEq

/-- A response body (`io.ReadCloser`): whether it also implements `io.Writer`,
as the body of a successful protocol switch does. -/
structure Body where
  isWriter : Bool
  deriving DecidableEq

/-- What the code looks at in an `*http.Response`: the status code, the header
`Content-Type` and the body, `none` being a nil body. -/
structure Response where
  StatusCode : Int
  contentType : String
  Body : Option Body
  deriving DecidableEq

namespace otelhttp

/-! ## The content-type classifier (`otelhttp/wrap.go`) -/

/-- `mime.ParseMediaType` of the Go standard library, as the code uses it: the
media type and the error (the parameter map is discarded by the caller). -/
abbrev MediaTypeParser := String → String × Option GoError

def excludedTypes : List String := ["audio", "image", "multipart", "video"]

def excludedTextSubTypes : List String := ["css", "html", "javascript"]

def excludedApplicationSubTypes : List String := ["javascript"]

/-- `shouldSkipResponseContentByType` of `otelhttp/wrap.go`. -/
def shouldSkipResponseContentByType (ParseMediaType : MediaTypeParser)
    (contentType : String) : Bool × Option GoError :=
  if contentType = "" then (false, none)
  else
    match ParseMediaType contentType with
    | (_, some err) => (true, some err)
    | (mediaType, none) =>
      let (mainType, subType, _) := stringsCut mediaType "/"
      if slicesContains excludedTypes mainType then (true, none)
      else if (mainType = "text" &&
                (slicesContains excludedTextSubTypes subType || stringsHasPrefix subType "vnd")) ||
              (mainType = "application" && slicesContains excludedApplicationSubTypes subType)
      then (true, none)
      else (false, none)

/-- The exclusion table in the words of the specification: the main type is
one of audio, image, multipart, video; or the main type is text and the sub
type is css, html, javascript or starts with "vnd"; or the main type is
application and the sub type is javascript. -/
def specExcluded (main sub : String) : Prop :=
  (main = "audio" ∨ main = "image" ∨ main = "multipart" ∨ main = "video") ∨
  (main = "text" ∧
    (sub = "css" ∨ sub = "html" ∨ sub = "javascript" ∨ "vnd".data <+: sub.data)) ∨
  (main = "application" ∧ sub = "javascript")

instance (main sub : String) : Decidable (specExcluded main sub) := by
  unfold specExcluded; infer_instance

/-- The main type of a parsed media type: the text before the first slash. -/
def mainTypeOf (mediaType : String) : String := (stringsCut mediaType "/").1

/-- The sub type of a parsed media type: the text after the first slash. -/
def subTypeOf (mediaType : String) : String := (stringsCut mediaType "/").2.1

/-! ## The stream taps of `otelhttp/wrap.go` -/

/-- The type `bodyWrapper` of `otelhttp/wrap.go`. The embedded `io.ReadCloser` is
represented by the outcomes of its calls; `recorded` lists the arguments the
callback `record` has been called with. -/
structure bodyWrapper where
  read : Int := 0
  err : Option GoError := none
  requestBody : List UInt8 := []
  metadataOnly : Bool := false
  contentType : String := ""
  recorded : List Int := []
  deriving DecidableEq

/-- The method `(*bodyWrapper).Read` of `otelhttp/wrap.go`, given the outcome `r`
of `w.ReadCloser.Read(b)`: the new wrapper and the returned `(n, err)`. -/
def bodyWrapper.Read (ParseMediaType : MediaTypeParser) (w : bodyWrapper)
    (r : ReadResult) : Option (bodyWrapper × Int × Option GoError) := do
  let requestBody ←
    if r.n > 0 then
      let shouldSkipContentByType := (shouldSkipResponseContentByType ParseMediaType w.contentType).1
      if !w.metadataOnly && !shouldSkipContentByType then
        (r.b.slice0 r.n).map fun bs => w.requestBody ++ bs
      else some w.requestBody
    else some w.requestBody
  let n1 := r.n
  some ({ w with
          requestBody := requestBody
          read := wrapInt64 (w.read + n1)
          err := r.err
          recorded := w.recorded ++ [n1] }, r.n, r.err)

/-- A sequence of `Read` calls on a `bodyWrapper`: the wrapper after the last
call, `none` when a call panics. -/
def bodyWrapper.reads (ParseMediaType : MediaTypeParser) :
    bodyWrapper → List ReadResult → Option bodyWrapper
  | w, [] => some w
  | w, r :: rs =>
    match bodyWrapper.Read ParseMediaType w r with
    | some (w1, _) => bodyWrapper.reads ParseMediaType w1 rs
    | none => none

/-- The type `respWriterWrapper` of `otelhttp/wrap.go`. The embedded
`http.ResponseWriter` is represented by the outcomes of its calls; `recorded`
lists the arguments of `record`, `forwarded` the status codes handed to the
underlying `WriteHeader`. -/
structure respWriterWrapper where
  written : Int := 0
  statusCode : Int := 0
  err : Option GoError := none
  wroteHeader : Bool := false
  responseBody : List UInt8 := []
  metadataOnly : Bool := false
  recorded : List Int := []
  forwarded : List Int := []
  deriving DecidableEq

/-- The method `(*respWriterWrapper).WriteHeader`. -/
def respWriterWrapper.WriteHeader (w : respWriterWrapper) (statusCode : Int) :
    respWriterWrapper :=
  if w.wroteHeader then w
  else { w with
         wroteHeader := true
         statusCode := statusCode
         forwarded := w.forwarded ++ [statusCode] }

/-- The method `(*respWriterWrapper).Write`, given the outcome `c` of
`w.ResponseWriter.Write(p)` and of the header lookup. -/
def respWriterWrapper.Write (ParseMediaType : MediaTypeParser) (w : respWriterWrapper)
    (c : WriteResult) : respWriterWrapper × Int × Option GoError :=
  let w := if !w.wroteHeader then w.WriteHeader 200 else w
  let respContentType := c.contentType
  let shouldSkipContentByType := (shouldSkipResponseContentByType ParseMediaType respContentType).1
  let w :=
    if !w.metadataOnly && !shouldSkipContentByType && decide (c.p.length > 0) then
      { w with responseBody := w.responseBody ++ c.p }
    else w
  let n1 := c.n
  ({ w with
     recorded := w.recorded ++ [n1]
     written := wrapInt64 (w.written + n1)
     err := c.err }, c.n, c.err)

/-- One call on a `respWriterWrapper`. -/
def respWriterWrapper.step (ParseMediaType : MediaTypeParser) (w : respWriterWrapper) :
    WriterOp → respWriterWrapper
  | .write c => (respWriterWrapper.Write ParseMediaType w c).1
  | .writeHeader statusCode => w.WriteHeader statusCode

/-- A sequence of calls on a `respWriterWrapper`. -/
def respWriterWrapper.run (ParseMediaType : MediaTypeParser) (w : respWriterWrapper)
    (ops : List WriterOp) : respWriterWrapper :=
  ops.foldl (respWriterWrapper.step ParseMediaType) w

/-! ## The client transport (`otelhttp/transport.go`) -/

/-- The library functions `transport.go` and `wrap.go` call: the media-type
parser of the Go standard library, the redactor of the helios SDK and the
`semconv` attribute builders. -/
structure Lib where
  ParseMediaType : MediaTypeParser
  ObfuscateAttributeValue : KeyValue → KeyValue
  HTTPClientAttributesFromHTTPRequest : Request → List KeyValue
  HTTPAttributesFromHTTPStatusCode : Int → List KeyValue
  SpanStatusFromHTTPStatusCode : Int → Code × String

/-- The type `wrappedBody` of `otelhttp/transport.go`. -/
structure wrappedBody where
  span : Span
  body : Option Body
  responseBody : List UInt8 := []
  contentType : String := ""
  metadataOnly : Bool := false
  deriving DecidableEq

/-- The method `(*wrappedBody).Write`, given the `(n, err)` the underlying
writer returned. The type assertion `wb.body.(io.Writer)` panics on a body
that is nil or no writer. -/
def wrappedBody.Write (wb : wrappedBody) (n : Int) (err : Option GoError) :
    Option (wrappedBody × Int × Option GoError) :=
  match wb.body with
  | none => none
  | some body =>
    if body.isWriter then
      match err with
      | some e =>
        some ({ wb with span := wb.span ++ [SpanEvent.RecordError e, SpanEvent.SetStatus Code.Error e.Error] }, n, err)
      | none => some (wb, n, err)
    else none

/-- The method `(*wrappedBody).Read`, given the outcome `r` of `wb.body.Read(b)`.
A nil body panics. -/
def wrappedBody.Read (lib : Lib) (wb : wrappedBody) (r : ReadResult) :
    Option (wrappedBody × Int × Option GoError) :=
  match wb.body with
  | none => none
  | some _ => do
    let responseBody ←
      if r.n > 0 && r.b.len ≥ r.n then
        let shouldSkipContentByType :=
          (shouldSkipResponseContentByType lib.ParseMediaType wb.contentType).1
        if !wb.metadataOnly && !shouldSkipContentByType then
          (r.b.slice0 r.n).map fun bs => wb.responseBody ++ bs
        else some wb.responseBody
      else some wb.responseBody
    let span : Span :=
      match r.err with
      | none => wb.span
      | some .EOF =>
        (if !wb.metadataOnly && decide (responseBody.length > 0) then
          wb.span ++ [SpanEvent.SetAttributes
            [lib.ObfuscateAttributeValue ⟨"http.response.body", .bytes responseBody⟩]]
        else wb.span) ++ [SpanEvent.End]
      | some err => wb.span ++ [SpanEvent.RecordError err, SpanEvent.SetStatus Code.Error err.Error]
    some ({ wb with responseBody := responseBody, span := span }, r.n, r.err)

/-- The method `(*wrappedBody).Close`, given the error the underlying `Close`
returns when the body is not nil. -/
def wrappedBody.Close (wb : wrappedBody) (closeErr : Option GoError) :
    wrappedBody × Option GoError :=
  let wb := { wb with span := wb.span ++ [SpanEvent.End] }
  match wb.body with
  | some _ => (wb, closeErr)
  | none => (wb, none)

/-- The buffer `wb.responseBody` as `Read` leaves it: the bytes delivered are
appended when `n > 0`, `len(b) >= n`, metadata-only is off and the classifier
does not exclude the content type of the wrapper. -/
def wrappedBody.bufferAfterRead (lib : Lib) (wb : wrappedBody) (r : ReadResult) : List UInt8 :=
  if r.n > 0 ∧ r.b.len ≥ r.n ∧ wb.metadataOnly = false ∧
      (shouldSkipResponseContentByType lib.ParseMediaType wb.contentType).1 = false then
    wb.responseBody ++ r.bytes
  else wb.responseBody

/-- The calls `Read` makes on the span, by the error of the underlying read and
the buffer `buf` at that time. -/
def wrappedBody.spanCallsOfRead (lib : Lib) (metadataOnly : Bool) (buf : List UInt8) :
    Option GoError → List SpanEvent
  | none => []
  | some .EOF =>
    (if !metadataOnly && decide (buf.length > 0) then
      [SpanEvent.SetAttributes
        [lib.ObfuscateAttributeValue ⟨"http.response.body", .bytes buf⟩]]
    else []) ++ [SpanEvent.End]
  | some err => [SpanEvent.RecordError err, SpanEvent.SetStatus Code.Error err.Error]

/-- A call the client makes on the response body. -/
inductive BodyOp where
  | read (r : ReadResult)
  | write (n : Int) (err : Option GoError)
  | close (closeErr : Option GoError)
  deriving DecidableEq

/-- Whether the call ends the span: a read whose underlying read returns
`io.EOF`, or a `Close`. -/
def BodyOp.ends : BodyOp → Bool
  | .read r => decide (r.err = some GoError.EOF)
  | .write _ _ => false
  | .close _ => true

/-- Whether the call is a `Write`. -/
def BodyOp.isWrite : BodyOp → Bool
  | .write _ _ => true
  | _ => false

/-- Whether the call is a `Read` whose underlying read returns `io.EOF`. -/
def BodyOp.isEOFRead : BodyOp → Bool
  | .read r => decide (r.err = some GoError.EOF)
  | _ => false

/-- One call on a `wrappedBody`; `none` when it panics. -/
def wrappedBody.step (lib : Lib) (wb : wrappedBody) : BodyOp → Option wrappedBody
  | .read r => (wrappedBody.Read lib wb r).map fun x => x.1
  | .write n err => (wb.Write n err).map fun x => x.1
  | .close closeErr => some (wb.Close closeErr).1

/-- A sequence of calls on a `wrappedBody`. -/
def wrappedBody.run (lib : Lib) : wrappedBody → List BodyOp → Option wrappedBody
  | wb, [] => some wb
  | wb, op :: ops =>
    match wrappedBody.step lib wb op with
    | some wb1 => wrappedBody.run lib wb1 ops
    | none => none

/-- The function `newWrappedBody`: the wrapped body, and whether the value
handed back still offers `Write` (an `io.ReadWriteCloser`); otherwise it is
the struct that shows `Read` and `Close` only. -/
def newWrappedBody (span : Span) (body : Option Body) (metadataOnly : Bool)
    (contentType : String) : wrappedBody × Bool :=
  if (match body with
      | some b => b.isWriter
      | none => false) then
    ({ span := span, body := body, metadataOnly := metadataOnly }, true)
  else
    ({ span := span, body := body, metadataOnly := metadataOnly,
       contentType := contentType }, false)

/-- Modelled from the spec: `collectRequestHeaders` of package `otelhttp` is not
among the sources; the specification has the request headers attached unless
metadata-only, and the definition follows the helper of the same name in
`otelmux/mux.go` and `otelecho/echo.go`. -/
def collectRequestHeaders (r : Request) (span : Span) : Span :=
  match r.headersJSON with
  | some headersStr => span ++ [SpanEvent.SetAttributes [⟨"http.request.headers", .text headersStr⟩]]
  | none => span

/-- The fields of `Transport` that decide what `RoundTrip` does to the span and
the bodies. -/
structure Transport where
  filters : List (Request → Bool)
  metadataOnly : Bool

/-- The outcome of `t.rt.RoundTrip(r)` on the base round tripper: the reads it
made on the request body while sending, and the `(res, err)` it returned. -/
structure SendOutcome where
  bodyReads : List ReadResult
  res : Option Response
  err : Option GoError
  deriving DecidableEq

/-- What `Transport.RoundTrip` hands back and leaves behind. -/
inductive RoundTripResult where
  /-- A filter rejected the request: the base result, no span. -/
  | passthrough (res : Option Response) (err : Option GoError)
  /-- The send failed: the base result and the span as it was left. -/
  | failed (res : Option Response) (err : GoError) (span : Span)
  /-- The send succeeded: the response, its body replaced by the wrapped body
  (which holds the span), and whether that body offers `Write`. -/
  | sent (res : Response) (body : wrappedBody) (offersWrite : Bool)
  deriving DecidableEq

/-- The method `(*Transport).RoundTrip`. -/
def Transport.RoundTrip (lib : Lib) (t : Transport) (r : Request) (out : SendOutcome) :
    Option RoundTripResult :=
  if t.filters.any (fun f => !f r) then some (.passthrough out.res out.err)
  else
    let bw : bodyWrapper :=
      if r.hasBody then { contentType := r.contentType, metadataOnly := t.metadataOnly }
      else {}
    let span : Span := []
    let span := if !t.metadataOnly then collectRequestHeaders r span else span
    let span := span ++ [SpanEvent.SetAttributes (lib.HTTPClientAttributesFromHTTPRequest r)]
    match (if r.hasBody then bodyWrapper.reads lib.ParseMediaType bw out.bodyReads
           else some bw) with
    | none => none
    | some bw =>
      match out.err with
      | some err =>
        some (.failed out.res err
          (span ++ [SpanEvent.RecordError err, SpanEvent.SetStatus Code.Error err.Error, SpanEvent.End]))
      | none =>
        let span :=
          if !t.metadataOnly && decide (bw.requestBody.length > 0) then
            span ++ [SpanEvent.SetAttributes
              [lib.ObfuscateAttributeValue ⟨"http.request.body", .bytes bw.requestBody⟩]]
          else span
        match out.res with
        | none => none
        | some res =>
          let span := span ++ [SpanEvent.SetAttributes (lib.HTTPAttributesFromHTTPStatusCode res.StatusCode)]
          let span := span ++ [SpanEvent.SetStatus (lib.SpanStatusFromHTTPStatusCode res.StatusCode).1
            (lib.SpanStatusFromHTTPStatusCode res.StatusCode).2]
          let respContentType := res.contentType
          let nb := newWrappedBody span res.Body t.metadataOnly respContentType
          some (.sent res nb.1 nb.2)

end otelhttp

/-! ## The gorilla/mux middleware (`otelmux/mux.go`) -/

namespace otelmux

/-- The function `datautils.ShouldSkipContentCollectionByContentType` of the
helios SDK, which `mux.go` calls as its content-type classifier. -/
abbrev Classifier := String → Bool × Option GoError

/-- The type `bodyWrapper` of `otelmux/mux.go`. -/
structure bodyWrapper where
  read : Int := 0
  err : Option GoError := none
  requestBody : List UInt8 := []
  metadataOnly : Bool := false
  contentType : String := ""
  deriving DecidableEq

/-- The method `(*bodyWrapper).Read` of `otelmux/mux.go`, given the outcome `r` of
`w.ReadCloser.Read(b)`. -/
def bodyWrapper.Read (ShouldSkipContentCollectionByContentType : Classifier)
    (w : bodyWrapper) (r : ReadResult) : Option (bodyWrapper × Int × Option GoError) := do
  let requestBody ←
    if r.n > 0 && !w.metadataOnly then
      let shouldSkipContentByType := (ShouldSkipContentCollectionByContentType w.contentType).1
      if !shouldSkipContentByType then
        (r.b.slice0 r.n).map fun bs => w.requestBody ++ bs
      else some w.requestBody
    else some w.requestBody
  let n1 := r.n
  some ({ w with
          requestBody := requestBody
          read := wrapInt64 (w.read + n1)
          err := r.err }, r.n, r.err)

/-- A sequence of `Read` calls on a `bodyWrapper`; `none` when a call panics. -/
def bodyWrapper.reads (ShouldSkipContentCollectionByContentType : Classifier) :
    bodyWrapper → List ReadResult → Option bodyWrapper
  | w, [] => some w
  | w, r :: rs =>
    match bodyWrapper.Read ShouldSkipContentCollectionByContentType w r with
    | some (w1, _) => bodyWrapper.reads ShouldSkipContentCollectionByContentType w1 rs
    | none => none

/-- An `http.ResponseWriter`, known by its identity. -/
abbrev Writer := Nat

/-- The type `recordingResponseWriter` of `otelmux/mux.go`; `writer` is `none`
for a nil reference. -/
structure recordingResponseWriter where
  writer : Option Writer := none
  written : Bool := false
  status : Int := 0
  responseBody : List UInt8 := []
  metadataOnly : Bool := false
  deriving DecidableEq

/-- The content of `rrwPool`: the recorders that were put and not yet taken. -/
abbrev Pool := List recordingResponseWriter

/-- The field `New` of `rrwPool`: a zero-valued recorder. -/
def rrwPool.New : recordingResponseWriter := {}

/-- The call `rrwPool.Get()`. A `sync.Pool` hands out an item of its choice or a
new one; `pick` is that choice: the index of a pooled item, or `none` (as an
index out of range) for a new one. -/
def rrwPool.Get (pool : Pool) (pick : Option Nat) : recordingResponseWriter × Pool :=
  match pick with
  | none => (rrwPool.New, pool)
  | some i =>
    match pool.get? i with
    | some rrw => (rrw, pool.eraseIdx i)
    | none => (rrwPool.New, pool)

/-- The call `rrwPool.Put(rrw)`. -/
def rrwPool.Put (pool : Pool) (rrw : recordingResponseWriter) : Pool := rrw :: pool

/-- The function `getRRW`: the recorder handed out and the pool left. The
wrapper `httpsnoop.Wrap(writer, hooks)` is known by the writer it wraps; its
hooks are `WriteHook` and `WriteHeaderHook`. -/
def getRRW (writer : Writer) (metadataOnly : Bool) (pool : Pool) (pick : Option Nat) :
    recordingResponseWriter × Pool :=
  let got := rrwPool.Get pool pick
  let rrw := got.1
  let rrw := { rrw with metadataOnly := metadataOnly }
  let rrw := { rrw with written := false }
  let rrw := { rrw with status := 200 }
  let rrw := { rrw with responseBody := [] }
  let rrw := { rrw with writer := some writer }
  (rrw, got.2)

/-- The function `putRRW`. -/
def putRRW (rrw : recordingResponseWriter) (pool : Pool) : Pool :=
  let rrw := { rrw with writer := none }
  rrwPool.Put pool rrw

/-- The hook `Write` that `getRRW` installs, given the bytes `b = c.p`, the
header `Content-Type` of the writer and the `(n, err)` that `next(b)` returns. -/
def recordingResponseWriter.WriteHook (ShouldSkipContentCollectionByContentType : Classifier)
    (rrw : recordingResponseWriter) (c : WriteResult) :
    recordingResponseWriter × Int × Option GoError :=
  let rrw := if !rrw.written then { rrw with written := true } else rrw
  let rrw :=
    if !rrw.metadataOnly && decide (c.p.length > 0) then
      let respContentType := c.contentType
      let shouldSkipContentByType := (ShouldSkipContentCollectionByContentType respContentType).1
      if !shouldSkipContentByType then { rrw with responseBody := rrw.responseBody ++ c.p }
      else rrw
    else rrw
  (rrw, c.n, c.err)

/-- The hook `WriteHeader` that `getRRW` installs. -/
def recordingResponseWriter.WriteHeaderHook (rrw : recordingResponseWriter)
    (statusCode : Int) : recordingResponseWriter :=
  if !rrw.written then { rrw with written := true, status := statusCode } else rrw

/-- One call on the wrapped writer of a recorder. -/
def recordingResponseWriter.step (ShouldSkipContentCollectionByContentType : Classifier)
    (rrw : recordingResponseWriter) : WriterOp → recordingResponseWriter
  | .write c => (rrw.WriteHook ShouldSkipContentCollectionByContentType c).1
  | .writeHeader statusCode => rrw.WriteHeaderHook statusCode

/-- A sequence of calls on the wrapped writer of a recorder. -/
def recordingResponseWriter.run (ShouldSkipContentCollectionByContentType : Classifier)
    (rrw : recordingResponseWriter) (ops : List WriterOp) : recordingResponseWriter :=
  ops.foldl (recordingResponseWriter.step ShouldSkipContentCollectionByContentType) rrw

end otelmux

/-! ## The echo middleware (`otelecho/echo.go`) -/

namespace otelecho

/-- The type `bodyWrapper` of `otelecho/echo.go`. -/
structure bodyWrapper where
  read : Int := 0
  err : Option GoError := none
  requestBody : List UInt8 := []
  metadataOnly : Bool := false
  deriving DecidableEq

/-- The method `(*bodyWrapper).Read` of `otelecho/echo.go`, given the outcome `r`
of `w.ReadCloser.Read(b)`. -/
def bodyWrapper.Read (w : bodyWrapper) (r : ReadResult) :
    Option (bodyWrapper × Int × Option GoError) := do
  let requestBody ←
    if r.n > 0 then
      if !w.metadataOnly then
        (r.b.slice0 r.n).map fun bs => w.requestBody ++ bs
      else some w.requestBody
    else some w.requestBody
  let n1 := r.n
  some ({ w with
          requestBody := requestBody
          read := wrapInt64 (w.read + n1)
          err := r.err }, r.n, r.err)

/-- A sequence of `Read` calls on a `bodyWrapper`; `none` when a call panics. -/
def bodyWrapper.reads : bodyWrapper → List ReadResult → Option bodyWrapper
  | w, [] => some w
  | w, r :: rs =>
    match bodyWrapper.Read w r with
    | some (w1, _) => bodyWrapper.reads w1 rs
    | none => none

/-- An `http.ResponseWriter`, known by its identity. -/
abbrev Writer := Nat

/-- The type `recordingResponseWriter` of `otelecho/echo.go`. -/
structure recordingResponseWriter where
  writer : Option Writer := none
  written : Bool := false
  status : Int := 0
  responseBody : List UInt8 := []
  metadataOnly : Bool := false
  deriving DecidableEq

/-- The content of `rrwPool`. -/
abbrev Pool := List recordingResponseWriter

/-- The field `New` of `rrwPool`: a zero-valued recorder. -/
def rrwPool.New : recordingResponseWriter := {}

/-- The call `rrwPool.Get()`; `pick` is the choice the pool makes: the index of a
pooled item, or `none` (as an index out of range) for a new one. -/
def rrwPool.Get (pool : Pool) (pick : Option Nat) : recordingResponseWriter × Pool :=
  match pick with
  | none => (rrwPool.New, pool)
  | some i =>
    match pool.get? i with
    | some rrw => (rrw, pool.eraseIdx i)
    | none => (rrwPool.New, pool)

/-- The call `rrwPool.Put(rrw)`. -/
def rrwPool.Put (pool : Pool) (rrw : recordingResponseWriter) : Pool := rrw :: pool

/-- The function `getRRW` of `otelecho/echo.go`. -/
def getRRW (writer : Writer) (pool : Pool) (pick : Option Nat) :
    recordingResponseWriter × Pool :=
  let got := rrwPool.Get pool pick
  let rrw := got.1
  let rrw := { rrw with written := false }
  let rrw := { rrw with status := 0 }
  let rrw := { rrw with responseBody := [] }
  let rrw := { rrw with writer := some writer }
  (rrw, got.2)

/-- The function `putRRW` of `otelecho/echo.go`. -/
def putRRW (rrw : recordingResponseWriter) (pool : Pool) : Pool :=
  let rrw := { rrw with writer := none }
  rrwPool.Put pool rrw

/-- The hook `Write` that `getRRW` installs. -/
def recordingResponseWriter.WriteHook (rrw : recordingResponseWriter) (c : WriteResult) :
    recordingResponseWriter × Int × Option GoError :=
  let rrw := if !rrw.written then { rrw with written := true, status := 200 } else rrw
  let rrw :=
    if !rrw.metadataOnly && decide (c.p.length > 0) then
      { rrw with responseBody := rrw.responseBody ++ c.p }
    else rrw
  (rrw, c.n, c.err)

/-- The hook `WriteHeader` that `getRRW` installs. -/
def recordingResponseWriter.WriteHeaderHook (rrw : recordingResponseWriter)
    (statusCode : Int) : recordingResponseWriter :=
  if !rrw.written then { rrw with written := true, status := statusCode } else rrw

/-- One call on the wrapped writer of a recorder. -/
def recordingResponseWriter.step (rrw : recordingResponseWriter) :
    WriterOp → recordingResponseWriter
  | .write c => (rrw.WriteHook c).1
  | .writeHeader statusCode => rrw.WriteHeaderHook statusCode

/-- A sequence of calls on the wrapped writer of a recorder. -/
def recordingResponseWriter.run (rrw : recordingResponseWriter) (ops : List WriterOp) :
    recordingResponseWriter :=
  ops.foldl recordingResponseWriter.step rrw

/-- The function `collectRequestHeaders` of `otelecho/echo.go`. -/
def collectRequestHeaders (r : Request) (span : Span) : Span :=
  match r.headersJSON with
  | some headersStr =>
    span ++ [SpanEvent.SetAttributes [⟨"http.request.headers", .text headersStr⟩]]
  | none => span

/-- The library functions the middleware calls on the span path: the redactor of
the helios SDK and the `semconv` builders (the span kind argument is the
constant `SpanKindServer`). -/
structure Lib where
  ObfuscateAttributeValue : KeyValue → KeyValue
  HTTPAttributesFromHTTPStatusCode : Int → List KeyValue
  SpanStatusFromHTTPStatusCodeAndSpanKind : Int → Code × String

/-- The surroundings of one call of the handler function that `Middleware`
returns: the skipper's answer, the request, the environment flag
`HS_METADATA_ONLY`, the writer of the response and the pool; what the wrapped
handler `next(c)` does (the reads on the request body, the calls on the
response writer, the error it returns); the calls the error handler `c.Error`
makes on the response writer; and `c.Response().Status` afterwards. -/
structure Call where
  skip : Bool
  request : Request
  metadataOnly : Bool
  writer : Writer
  pool : Pool
  pick : Option Nat
  bodyReads : List ReadResult
  writes : List WriterOp
  err : Option GoError
  errorWrites : List WriterOp
  status : Int
  deriving DecidableEq

/-- What one call of the middleware leaves behind: the error it returns, the
span (`none` when the request was skipped), the errors handed to `c.Error`,
the request-body wrapper and the recorder at the end, and the pool. -/
structure Outcome where
  ret : Option GoError
  span : Option Span
  handled : List GoError
  bw : bodyWrapper
  rrw : recordingResponseWriter
  pool : Pool
  deriving DecidableEq

/-- The handler function that `Middleware` of `otelecho/echo.go` returns; `none`
when a read of the request body panics. -/
def Middleware (lib : Lib) (c : Call) : Option Outcome :=
  if c.skip then
    some { ret := c.err, span := none, handled := [], bw := {}, rrw := {}, pool := c.pool }
  else
    let request := c.request
    let metadataOnly := c.metadataOnly
    let bw : bodyWrapper :=
      if request.hasBody then { metadataOnly := metadataOnly } else {}
    let span : Span := []
    let got := getRRW c.writer c.pool c.pick
    let rrw := { got.1 with metadataOnly := metadataOnly }
    match (if request.hasBody then bodyWrapper.reads bw c.bodyReads else some bw) with
    | none => none
    | some bw =>
      let rrw := rrw.run c.writes
      let err := c.err
      let afterError : Span × List GoError × recordingResponseWriter :=
        match err with
        | some e =>
          (span ++ [SpanEvent.SetAttributes [⟨"echo.error", .text e.Error⟩]], [e],
            rrw.run c.errorWrites)
        | none => (span, [], rrw)
      let span := afterError.1
      let rrw := afterError.2.2
      let attrs := lib.HTTPAttributesFromHTTPStatusCode c.status
      let spanStatus := lib.SpanStatusFromHTTPStatusCodeAndSpanKind c.status
      let span := span ++ [SpanEvent.SetAttributes attrs]
      let span := span ++ [SpanEvent.SetStatus spanStatus.1 spanStatus.2]
      let span :=
        if !metadataOnly then
          let span := collectRequestHeaders request span
          let span :=
            if decide (bw.requestBody.length > 0) then
              span ++ [SpanEvent.SetAttributes
                [lib.ObfuscateAttributeValue ⟨"http.request.body", .bytes bw.requestBody⟩]]
            else span
          if decide (rrw.responseBody.length > 0) then
            span ++ [SpanEvent.SetAttributes
              [lib.ObfuscateAttributeValue ⟨"http.response.body", .bytes rrw.responseBody⟩]]
          else span
        else span
      some { ret := none, span := some (span ++ [SpanEvent.End]), handled := afterError.2.1,
             bw := bw, rrw := rrw, pool := putRRW rrw got.2 }

end otelecho

/-! ## The lambda handler wrapper (`otellambda/wrapHandler.go`) -/

namespace otellambda

/-- The methods of the type `instrumentor` that `Invoke` calls. The type is not
among the sources, so the two methods are taken as they are used: the calls
`tracingBegin(ctx, payload)` makes on the span it starts, and the calls
`tracingEnd(ctx, span)` adds to a span. -/
structure instrumentor where
  tracingBegin : List UInt8 → Span
  tracingEnd : Span → Span

/-- The type `wrappedHandler`. The field `handler` is represented by the outcome
of its call. -/
structure wrappedHandler where
  instrumentor : instrumentor

/-- The outcome of `h.handler.Invoke(ctx, payload)` on the handler of the user. -/
structure HandlerResult where
  response : List UInt8
  err : Option GoError
  deriving DecidableEq

/-- The process environment, `os.Getenv`; the setting of metadata-only capture is
the variable `HS_METADATA_ONLY`. -/
abbrev Environment := String → String

/-- Whether the environment enables metadata-only capture, as the other adapters
read it: `os.Getenv("HS_METADATA_ONLY") == "true"`. -/
def Environment.metadataOnly (env : Environment) : Bool := env "HS_METADATA_ONLY" == "true"

/-- The redactor of the helios SDK, which `wrapHandler.go` imports as
`obfuscator`. -/
structure Lib where
  ObfuscateAttributeValue : KeyValue → KeyValue

/-- What `Invoke` returns and the span as it leaves it; a nil response is the
empty list. -/
structure InvokeResult where
  response : List UInt8
  err : Option GoError
  span : Span
  deriving DecidableEq

/-- The method `wrappedHandler.Invoke`, in the process environment `_env`, which
it does not read. -/
def wrappedHandler.Invoke (lib : Lib) (h : wrappedHandler) (_env : Environment)
    (payload : List UInt8) (out : HandlerResult) : InvokeResult :=
  let span := h.instrumentor.tracingBegin payload
  let span :=
    if decide (payload.length > 0) then
      span ++ [SpanEvent.SetAttributes
        [lib.ObfuscateAttributeValue ⟨"faas.event", .bytes payload⟩]]
    else span
  match out.err with
  | some err => { response := [], err := some err, span := h.instrumentor.tracingEnd span }
  | none =>
    let response := out.response
    let span :=
      if decide (response.length > 0) then
        span ++ [SpanEvent.SetAttributes
          [lib.ObfuscateAttributeValue ⟨"faas.res", .bytes response⟩]]
      else span
    { response := response, err := none, span := h.instrumentor.tracingEnd span }

end otellambda

/-! ## Byte counts -/

/-- The total of the byte counts `n` that a sequence of underlying reads
returned. -/
def ReadResult.total (rs : List ReadResult) : Int := (rs.map fun r => r.n).sum

/-- The byte count `n` that the underlying writer returned on a call, none for
`WriteHeader`. -/
def WriterOp.count : WriterOp → Int
  | .write c => c.n
  | .writeHeader _ => 0

/-- The total of the byte counts that the underlying writer returned. -/
def WriterOp.total (ops : List WriterOp) : Int := (ops.map WriterOp.count).sum

/-- The underlying writer reports a count within the bytes passed:
`0 <= n <= len(p)`. -/
def WriterOp.Conforms : WriterOp → Prop
  | .write c => 0 ≤ c.n ∧ c.n ≤ c.p.length
  | .writeHeader _ => True

/-- The underlying writer reports a complete write: `n = len(p)`. -/
def WriterOp.Complete : WriterOp → Prop
  | .write c => c.n = c.p.length
  | .writeHeader _ => True

instance (op : WriterOp) : Decidable op.Conforms := by
  cases op <;> unfold WriterOp.Conforms <;> infer_instance

instance (op : WriterOp) : Decidable op.Complete := by
  cases op <;> unfold WriterOp.Complete <;> infer_instance

/-! ## Values for evaluating the code on examples -/

/-- The status a first call on a response writer fixes, in the words of the
specification: the code passed when the call is `WriteHeader`, 200 when it is
`Write`. -/
def WriterOp.firstStatus : WriterOp → Int
  | .writeHeader statusCode => statusCode
  | .write _ => 200

namespace Sample

/-- A media-type parser that takes its argument as the media type, which is what
`mime.ParseMediaType` answers on a lower-case `type/subtype` without
parameters. -/
def acceptVerbatim : otelhttp.MediaTypeParser := fun s => (s, none)

/-- A media-type parser that rejects its argument, which is what
`mime.ParseMediaType` answers on a string with no media type in it. -/
def rejectAll : otelhttp.MediaTypeParser :=
  fun _ => ("", some (GoError.other "mime: no media type"))

/-- A classifier for `otelmux` that excludes nothing. -/
def allowAll : otelmux.Classifier := fun _ => (false, none)

/-- Library functions for the client transport: the verbatim parser, a redactor
that changes nothing, and `semconv` builders that add no attribute. -/
def lib : otelhttp.Lib where
  ParseMediaType := acceptVerbatim
  ObfuscateAttributeValue := fun kv => kv
  HTTPClientAttributesFromHTTPRequest := fun _ => []
  HTTPAttributesFromHTTPStatusCode := fun _ => []
  SpanStatusFromHTTPStatusCode := fun _ => (Code.Unset, "")

/-- The same library with the parser that rejects its argument. -/
def libRejecting : otelhttp.Lib := { lib with ParseMediaType := rejectAll }

/-- Library functions for the echo middleware. -/
def echoLib : otelecho.Lib where
  ObfuscateAttributeValue := fun kv => kv
  HTTPAttributesFromHTTPStatusCode := fun _ => []
  SpanStatusFromHTTPStatusCodeAndSpanKind := fun _ => (Code.Unset, "")

/-- A read that delivers the two bytes `{}` into a buffer of four, with no error. -/
def readBraces : ReadResult := { b := { elems := [123, 125, 0, 0] }, n := 2, err := none }

/-- A read that reports three bytes on a buffer of length and capacity two, with
no error: a reader that breaks the contract of `io.Reader`. -/
def readBeyondCap : ReadResult := { b := { elems := [123, 125] }, n := 3, err := none }

/-- A read that delivers nothing and returns `io.EOF`. -/
def readEOF : ReadResult := { b := { elems := [0, 0, 0, 0] }, n := 0, err := some GoError.EOF }

/-- A write of the two bytes `{}` that the underlying writer accepts in full, the
response header saying `application/json`. -/
def writeBraces : WriteResult :=
  { p := [123, 125], n := 2, err := none, contentType := "application/json" }

/-- A request with a JSON body. -/
def postJSON : Request :=
  { Method := "POST", contentType := "application/json", headersJSON := some "{}", hasBody := true }

/-- A response `200` with a JSON body that is no writer. -/
def okJSON : Response :=
  { StatusCode := 200, contentType := "application/json", Body := some { isWriter := false } }

/-- A GET request without a body. -/
def getNoBody : Request :=
  { Method := "GET", contentType := "", headersJSON := some "{}", hasBody := false }

/-- A call of the echo middleware on a request that is not skipped, whose
handler reads nothing, writes nothing and returns the error `boom`, which the
error handler answers with `WriteHeader(500)`. -/
def echoFailingCall : otelecho.Call :=
  { skip := false, request := getNoBody, metadataOnly := false, writer := 0, pool := [],
    pick := none, bodyReads := [], writes := [], err := some (GoError.other "boom"),
    errorWrites := [WriterOp.writeHeader 500], status := 500 }

/-- A call of the echo middleware on a POST with the header `Content-Type:
image/png`, metadata-only off, whose handler reads the bytes `{}` and then
`io.EOF` from the request body, writes nothing and returns no error. -/
def echoImageCall : otelecho.Call :=
  { skip := false,
    request := { Method := "POST", contentType := "image/png", headersJSON := some "{}",
                 hasBody := true },
    metadataOnly := false, writer := 0, pool := [], pick := none,
    bodyReads := [readBraces, readEOF], writes := [], err := none, errorWrites := [],
    status := 200 }

/-- A write of the two bytes `{}` of which the underlying writer accepts one and
returns `io.ErrShortWrite`. -/
def shortWrite : WriteResult :=
  { p := [123, 125], n := 1, err := some (GoError.other "short write"),
    contentType := "application/json" }

/-- A response `101` to a protocol switch, with the header `Content-Type:
image/png`, whose body is also a writer. -/
def upgradePNG : Response :=
  { StatusCode := 101, contentType := "image/png", Body := some { isWriter := true } }

/-- A response `200` with the header `Content-Type: image/png`, whose body is no
writer. -/
def okPNG : Response :=
  { StatusCode := 200, contentType := "image/png", Body := some { isWriter := false } }

/-- The redactor for the lambda wrapper: one that changes nothing. -/
def lambdaLib : otellambda.Lib where
  ObfuscateAttributeValue := fun kv => kv

/-- A wrapped lambda handler whose instrumentor makes no call on the span at the
start and ends it at the end. -/
def lambdaHandler : otellambda.wrappedHandler where
  instrumentor :=
    { tracingBegin := fun _ => []
      tracingEnd := fun span => span ++ [SpanEvent.End] }

/-- A process environment in which `HS_METADATA_ONLY` is `true`. -/
def envMetadataOnly : otellambda.Environment :=
  fun name => if name = "HS_METADATA_ONLY" then "true" else ""

end Sample

/-! ## Theorems -/

/-- Within the `int64` range the wrap-around is the identity. -/
theorem wrapInt64_of_inRange (x : Int) (h1 : -2 ^ 63 ≤ x) (h2 : x < 2 ^ 63) :
    wrapInt64 x = x := by
  unfold wrapInt64
  omega

/-- A slice expression within the capacity does not panic. -/
theorem ByteSlice.slice0_isSome (b : ByteSlice) (n : Int) (h0 : 0 < n) (h : n ≤ b.cap) :
    b.slice0 n = some ((b.elems ++ b.spare).take n.toNat) := by
  unfold ByteSlice.slice0
  rw [if_pos ⟨le_of_lt h0, h⟩]

/-- On a conforming read with `n > 0` the slice expression `b[0:n]` yields the
bytes delivered. -/
theorem ReadResult.slice0_of_conforms (r : ReadResult) (h : r.Conforms) (h0 : 0 < r.n) :
    r.b.slice0 r.n = some r.bytes := by
  obtain ⟨_, hle⟩ := h
  have hcap : r.n ≤ r.b.cap := by
    unfold ByteSlice.cap
    unfold ByteSlice.len at hle
    omega
  rw [ByteSlice.slice0_isSome r.b r.n h0 hcap]
  unfold ReadResult.bytes
  congr 1
  apply List.take_append_of_le_length
  unfold ByteSlice.len at hle
  omega

/-- A conforming read with `n <= 0` delivers no byte. -/
theorem ReadResult.bytes_of_nonpos (r : ReadResult) (h0 : ¬ 0 < r.n) : r.bytes = [] := by
  unfold ReadResult.bytes
  have : r.n.toNat = 0 := by omega
  rw [this]
  rfl

namespace otelhttp

/-- The table lookup of the classifier on a main and a sub type agrees with the
table of the specification. -/
theorem classify_eq_specExcluded (m sb : String) :
    (if slicesContains excludedTypes m then ((true, none) : Bool × Option GoError)
      else if (m = "text" &&
                (slicesContains excludedTextSubTypes sb || stringsHasPrefix sb "vnd")) ||
              (m = "application" && slicesContains excludedApplicationSubTypes sb)
      then (true, none)
      else (false, none)) = (decide (specExcluded m sb), none) := by
  simp only [slicesContains, excludedTypes, excludedTextSubTypes,
    excludedApplicationSubTypes, stringsHasPrefix, specExcluded,
    List.contains_eq_any_beq, List.any_cons, List.any_nil, Bool.or_false]
  by_cases h1 : m = "audio" ∨ m = "image" ∨ m = "multipart" ∨ m = "video"
  · have : (m == "audio" || (m == "image" || (m == "multipart" || m == "video"))) = true := by
      simpa using h1
    simp [this, h1]
  · have : (m == "audio" || (m == "image" || (m == "multipart" || m == "video"))) = false := by
      simpa using h1
    simp only [this, h1, List.isPrefixOf_iff_prefix, Bool.false_eq_true, if_false,
      false_or, Bool.and_eq_true, Bool.or_eq_true, decide_eq_true_eq, beq_iff_eq]
    split_ifs with h2
    · simp only [Prod.mk.injEq, and_true]
      symm
      simpa [or_assoc] using h2
    · simp only [Prod.mk.injEq, and_true]
      symm
      simpa [or_assoc] using h2

/-! ### The request-body tap of `otelhttp` -/

/-- A read that does not capture (metadata-only, or a content type the
classifier excludes) leaves the buffer alone and never panics. -/
theorem bodyWrapper.Read_of_noCapture (P : MediaTypeParser) (w : bodyWrapper) (r : ReadResult)
    (h : w.metadataOnly = true ∨ (shouldSkipResponseContentByType P w.contentType).1 = true) :
    bodyWrapper.Read P w r =
      some ({ w with read := wrapInt64 (w.read + r.n), err := r.err,
                     recorded := w.recorded ++ [r.n] }, r.n, r.err) := by
  unfold bodyWrapper.Read
  by_cases hn : r.n > 0
  · rcases h with h | h <;> simp [hn, h]
  · simp [hn]

/-- A capturing read of a conforming result appends the bytes delivered. -/
theorem bodyWrapper.Read_of_capture (P : MediaTypeParser) (w : bodyWrapper) (r : ReadResult)
    (hm : w.metadataOnly = false)
    (hs : (shouldSkipResponseContentByType P w.contentType).1 = false)
    (hr : r.Conforms) :
    bodyWrapper.Read P w r =
      some ({ w with requestBody := w.requestBody ++ r.bytes,
                     read := wrapInt64 (w.read + r.n), err := r.err,
                     recorded := w.recorded ++ [r.n] }, r.n, r.err) := by
  unfold bodyWrapper.Read
  by_cases hn : r.n > 0
  · simp [hn, hm, hs, ReadResult.slice0_of_conforms r hr hn]
  · simp [hn, ReadResult.bytes_of_nonpos r hn]

/-- A read whose count is within the capacity of the buffer never panics, and
only the buffer depends on the capture decision. -/
theorem bodyWrapper.Read_of_le_cap (P : MediaTypeParser) (w : bodyWrapper) (r : ReadResult)
    (h : r.n ≤ r.b.cap) :
    ∃ body, bodyWrapper.Read P w r =
      some ({ w with requestBody := body,
                     read := wrapInt64 (w.read + r.n), err := r.err,
                     recorded := w.recorded ++ [r.n] }, r.n, r.err) := by
  by_cases hc : w.metadataOnly = true ∨ (shouldSkipResponseContentByType P w.contentType).1 = true
  · exact ⟨w.requestBody, bodyWrapper.Read_of_noCapture P w r hc⟩
  · have hm : w.metadataOnly = false := by
      cases hmo : w.metadataOnly
      · rfl
      · exact absurd (Or.inl hmo) hc
    have hs : (shouldSkipResponseContentByType P w.contentType).1 = false := by
      cases hsk : (shouldSkipResponseContentByType P w.contentType).1
      · rfl
      · exact absurd (Or.inr hsk) hc
    unfold bodyWrapper.Read
    by_cases hn : r.n > 0
    · refine ⟨w.requestBody ++ (r.b.elems ++ r.b.spare).take r.n.toNat, ?_⟩
      simp [hn, hm, hs, ByteSlice.slice0_isSome r.b r.n hn h]
    · exact ⟨w.requestBody, by simp [hn]⟩

/-- Reads that do not capture leave the buffer as it was, whatever is read. -/
theorem bodyWrapper.reads_of_noCapture (P : MediaTypeParser) (rs : List ReadResult) :
    ∀ w : bodyWrapper,
      (w.metadataOnly = true ∨ (shouldSkipResponseContentByType P w.contentType).1 = true) →
      ∃ w1, bodyWrapper.reads P w rs = some w1 ∧ w1.requestBody = w.requestBody ∧
        w1.metadataOnly = w.metadataOnly ∧ w1.contentType = w.contentType := by
  induction rs with
  | nil => intro w _; exact ⟨w, rfl, rfl, rfl, rfl⟩
  | cons r rs ih =>
    intro w h
    unfold bodyWrapper.reads
    rw [bodyWrapper.Read_of_noCapture P w r h]
    exact ih _ h

/-- Capturing reads of conforming results append, in order, the bytes delivered. -/
theorem bodyWrapper.reads_of_capture (P : MediaTypeParser) (rs : List ReadResult) :
    ∀ w : bodyWrapper, w.metadataOnly = false →
      (shouldSkipResponseContentByType P w.contentType).1 = false →
      (∀ r ∈ rs, r.Conforms) →
      ∃ w1, bodyWrapper.reads P w rs = some w1 ∧
        w1.requestBody = w.requestBody ++ (rs.map ReadResult.bytes).flatten := by
  induction rs with
  | nil => intro w _ _ _; exact ⟨w, rfl, by simp⟩
  | cons r rs ih =>
    intro w hm hs hr
    unfold bodyWrapper.reads
    rw [bodyWrapper.Read_of_capture P w r hm hs (hr r (List.mem_cons_self r rs))]
    obtain ⟨w1, h1, h2⟩ :=
      ih { w with requestBody := w.requestBody ++ r.bytes,
                  read := wrapInt64 (w.read + r.n), err := r.err,
                  recorded := w.recorded ++ [r.n] }
        hm hs (fun x hx => hr x (List.mem_cons_of_mem r hx))
    exact ⟨w1, h1, by simp [h2]⟩

/-- Reads whose counts are within the capacities never panic. -/
theorem bodyWrapper.reads_of_le_cap (P : MediaTypeParser) (rs : List ReadResult) :
    ∀ w : bodyWrapper, (∀ r ∈ rs, r.n ≤ r.b.cap) →
      ∃ w1, bodyWrapper.reads P w rs = some w1 := by
  induction rs with
  | nil => intro w _; exact ⟨w, rfl⟩
  | cons r rs ih =>
    intro w hr
    unfold bodyWrapper.reads
    obtain ⟨body, hb⟩ := bodyWrapper.Read_of_le_cap P w r (hr r (List.mem_cons_self r rs))
    rw [hb]
    exact ih _ (fun x hx => hr x (List.mem_cons_of_mem r hx))

/-! ### The response-writer tap of `otelhttp` -/

/-- What `Write` returns is what the underlying writer returned. -/
theorem respWriterWrapper.Write_snd (P : MediaTypeParser) (w : respWriterWrapper)
    (c : WriteResult) : (respWriterWrapper.Write P w c).2 = (c.n, c.err) := rfl

/-- The flag `metadataOnly` is never changed by `WriteHeader`. -/
theorem respWriterWrapper.WriteHeader_metadataOnly (w : respWriterWrapper) (code : Int) :
    (w.WriteHeader code).metadataOnly = w.metadataOnly := by
  unfold respWriterWrapper.WriteHeader
  split <;> rfl

/-- The buffer is never changed by `WriteHeader`. -/
theorem respWriterWrapper.WriteHeader_responseBody (w : respWriterWrapper) (code : Int) :
    (w.WriteHeader code).responseBody = w.responseBody := by
  unfold respWriterWrapper.WriteHeader
  split <;> rfl

/-- After `WriteHeader` the header is marked as written. -/
theorem respWriterWrapper.WriteHeader_wroteHeader (w : respWriterWrapper) (code : Int) :
    (w.WriteHeader code).wroteHeader = true := by
  unfold respWriterWrapper.WriteHeader
  by_cases h : w.wroteHeader = true
  · simp [h]
  · simp [h]

/-- The status code after `WriteHeader`: the old one once the header is written,
the code passed otherwise. -/
theorem respWriterWrapper.WriteHeader_statusCode (w : respWriterWrapper) (code : Int) :
    (w.WriteHeader code).statusCode = if w.wroteHeader then w.statusCode else code := by
  unfold respWriterWrapper.WriteHeader
  by_cases h : w.wroteHeader = true
  · simp [h]
  · simp [h]

/-- The flag `metadataOnly` is never changed by `Write`. -/
theorem respWriterWrapper.Write_metadataOnly (P : MediaTypeParser) (w : respWriterWrapper)
    (c : WriteResult) : (respWriterWrapper.Write P w c).1.metadataOnly = w.metadataOnly := by
  unfold respWriterWrapper.Write respWriterWrapper.WriteHeader
  cases hw : w.wroteHeader <;> cases hm : w.metadataOnly <;>
    cases hs : (shouldSkipResponseContentByType P c.contentType).1 <;>
    by_cases hp : c.p.length > 0 <;> simp [hw, hm, hs, hp]

/-- After `Write` the header is marked as written. -/
theorem respWriterWrapper.Write_wroteHeader (P : MediaTypeParser) (w : respWriterWrapper)
    (c : WriteResult) : (respWriterWrapper.Write P w c).1.wroteHeader = true := by
  unfold respWriterWrapper.Write respWriterWrapper.WriteHeader
  cases hw : w.wroteHeader <;> cases hm : w.metadataOnly <;>
    cases hs : (shouldSkipResponseContentByType P c.contentType).1 <;>
    by_cases hp : c.p.length > 0 <;> simp [hw, hm, hs, hp]

/-- The status code after `Write`: the old one once the header is written, 200
otherwise. -/
theorem respWriterWrapper.Write_statusCode (P : MediaTypeParser) (w : respWriterWrapper)
    (c : WriteResult) :
    (respWriterWrapper.Write P w c).1.statusCode =
      if w.wroteHeader then w.statusCode else 200 := by
  unfold respWriterWrapper.Write respWriterWrapper.WriteHeader
  cases hw : w.wroteHeader <;> cases hm : w.metadataOnly <;>
    cases hs : (shouldSkipResponseContentByType P c.contentType).1 <;>
    by_cases hp : c.p.length > 0 <;> simp [hw, hm, hs, hp]

/-- A `Write` that does not capture (metadata-only, or a content type the
classifier excludes) leaves the buffer alone. -/
theorem respWriterWrapper.Write_of_noCapture (P : MediaTypeParser) (w : respWriterWrapper)
    (c : WriteResult)
    (h : w.metadataOnly = true ∨ (shouldSkipResponseContentByType P c.contentType).1 = true) :
    (respWriterWrapper.Write P w c).1.responseBody = w.responseBody := by
  unfold respWriterWrapper.Write respWriterWrapper.WriteHeader
  rcases h with h | h <;> cases hw : w.wroteHeader <;> simp [hw, h]

/-- In metadata-only mode no sequence of calls puts a byte into the buffer. -/
theorem respWriterWrapper.run_of_metadataOnly (P : MediaTypeParser) (ops : List WriterOp) :
    ∀ w : respWriterWrapper, w.metadataOnly = true →
      (w.run P ops).responseBody = w.responseBody ∧ (w.run P ops).metadataOnly = true := by
  induction ops with
  | nil => intro w h; exact ⟨rfl, h⟩
  | cons op ops ih =>
    intro w h
    unfold respWriterWrapper.run
    rw [List.foldl_cons]
    have hstep : (respWriterWrapper.step P w op).metadataOnly = true ∧
        (respWriterWrapper.step P w op).responseBody = w.responseBody := by
      cases op with
      | write c =>
        exact ⟨by simp [respWriterWrapper.step, respWriterWrapper.Write_metadataOnly, h],
          respWriterWrapper.Write_of_noCapture P w c (Or.inl h)⟩
      | writeHeader code =>
        exact ⟨by simp [respWriterWrapper.step, respWriterWrapper.WriteHeader_metadataOnly, h],
          respWriterWrapper.WriteHeader_responseBody w code⟩
    have := ih (respWriterWrapper.step P w op) hstep.1
    unfold respWriterWrapper.run at this
    exact ⟨this.1.trans hstep.2, this.2⟩

/-- Once the header is written, no sequence of calls changes the status code. -/
theorem respWriterWrapper.run_statusCode_of_wroteHeader (P : MediaTypeParser)
    (ops : List WriterOp) :
    ∀ w : respWriterWrapper, w.wroteHeader = true →
      (w.run P ops).statusCode = w.statusCode := by
  induction ops with
  | nil => intro w _; rfl
  | cons op ops ih =>
    intro w h
    unfold respWriterWrapper.run
    rw [List.foldl_cons]
    have hstep : (respWriterWrapper.step P w op).wroteHeader = true ∧
        (respWriterWrapper.step P w op).statusCode = w.statusCode := by
      cases op with
      | write c =>
        exact ⟨respWriterWrapper.Write_wroteHeader P w c,
          by simp [respWriterWrapper.step, respWriterWrapper.Write_statusCode, h]⟩
      | writeHeader code =>
        exact ⟨respWriterWrapper.WriteHeader_wroteHeader w code,
          by simp [respWriterWrapper.step, respWriterWrapper.WriteHeader_statusCode, h]⟩
    have := ih (respWriterWrapper.step P w op) hstep.1
    unfold respWriterWrapper.run at this
    exact this.trans hstep.2

/-! ### The response-body tap of the client transport -/

/-! ### The response-body tap of the client transport -/

/-- On a body that is not nil, `Read` never panics: it returns what the
underlying read returned and changes only the buffer and the span, as
`bufferAfterRead` and `spanCallsOfRead` say. -/
theorem wrappedBody.Read_of_body (lib : Lib) (wb : wrappedBody) (r : ReadResult) (b : Body)
    (hb : wb.body = some b) :
    wrappedBody.Read lib wb r =
      some ({ wb with
              responseBody := wb.bufferAfterRead lib r
              span := wb.span ++
                wrappedBody.spanCallsOfRead lib wb.metadataOnly (wb.bufferAfterRead lib r) r.err },
            r.n, r.err) := by
  unfold wrappedBody.Read wrappedBody.bufferAfterRead
  rw [hb]
  by_cases h1 : r.n > 0
  · by_cases h2 : r.b.len ≥ r.n
    · have hsl := ReadResult.slice0_of_conforms r ⟨le_of_lt h1, h2⟩ h1
      cases hm : wb.metadataOnly <;>
        cases hs : (shouldSkipResponseContentByType lib.ParseMediaType wb.contentType).1 <;>
        rcases he : r.err with _ | (_ | msg) <;>
        simp [h1, h2, hm, hs, hsl, wrappedBody.spanCallsOfRead] <;>
        split_ifs <;> simp
    · rcases he : r.err with _ | (_ | msg)
      · simp [h1, h2, wrappedBody.spanCallsOfRead]
      · simp [h1, h2, wrappedBody.spanCallsOfRead]
        split_ifs <;> simp
      · simp [h1, h2, wrappedBody.spanCallsOfRead]
  · rcases he : r.err with _ | (_ | msg)
    · simp [h1, wrappedBody.spanCallsOfRead]
    · simp [h1, wrappedBody.spanCallsOfRead]
      split_ifs <;> simp
    · simp [h1, wrappedBody.spanCallsOfRead]

/-- With capture off (metadata-only, or an excluded content type) `Read` leaves
the buffer alone. -/
theorem wrappedBody.bufferAfterRead_of_noCapture (lib : Lib) (wb : wrappedBody) (r : ReadResult)
    (h : wb.metadataOnly = true ∨
      (shouldSkipResponseContentByType lib.ParseMediaType wb.contentType).1 = true) :
    wb.bufferAfterRead lib r = wb.responseBody := by
  unfold wrappedBody.bufferAfterRead
  rcases h with h | h <;> simp [h]

/-- The calls of one `Read` hold one `End` when the underlying read returned
`io.EOF`, and none otherwise. -/
theorem wrappedBody.spanCallsOfRead_endCalls (lib : Lib) (m : Bool) (buf : List UInt8)
    (err : Option GoError) :
    Span.endCalls (wrappedBody.spanCallsOfRead lib m buf err) =
      if err = some GoError.EOF then 1 else 0 := by
  rcases err with _ | (_ | msg)
  · rfl
  · unfold wrappedBody.spanCallsOfRead Span.endCalls
    by_cases hc : (!m && decide (buf.length > 0)) = true
    · simp [hc, List.count_cons]
    · simp [hc, List.count_cons]
  · simp [wrappedBody.spanCallsOfRead, Span.endCalls, List.count_cons]

/-- What one call that does not panic does: the body, the flag and the content
type stay, the span receives one more `End` exactly when the call is a read
returning `io.EOF` or a `Close`, and the buffer stays when capture is off. -/
theorem wrappedBody.step_spec (lib : Lib) (wb wb1 : wrappedBody) (op : BodyOp)
    (h : wrappedBody.step lib wb op = some wb1) :
    wb1.body = wb.body ∧ wb1.metadataOnly = wb.metadataOnly ∧
    wb1.contentType = wb.contentType ∧
    Span.endCalls wb1.span = Span.endCalls wb.span + (if op.ends then 1 else 0) ∧
    ((wb.metadataOnly = true ∨
        (shouldSkipResponseContentByType lib.ParseMediaType wb.contentType).1 = true) →
      wb1.responseBody = wb.responseBody) := by
  cases op with
  | read r =>
    rcases hb : wb.body with _ | b
    · simp [wrappedBody.step, wrappedBody.Read, hb] at h
    · simp only [wrappedBody.step, wrappedBody.Read_of_body lib wb r b hb, Option.map_some',
        Option.some.injEq] at h
      subst h
      refine ⟨hb.symm ▸ rfl, rfl, rfl, ?_, ?_⟩
      · simp only [Span.endCalls, List.count_append, BodyOp.ends]
        have := wrappedBody.spanCallsOfRead_endCalls lib wb.metadataOnly
          (wb.bufferAfterRead lib r) r.err
        simp only [Span.endCalls] at this
        rw [this]
        simp
      · intro hc
        exact wrappedBody.bufferAfterRead_of_noCapture lib wb r hc
  | write n err =>
    rcases hb : wb.body with _ | b
    · simp [wrappedBody.step, wrappedBody.Write, hb] at h
    · cases hw : b.isWriter
      · simp [wrappedBody.step, wrappedBody.Write, hb, hw] at h
      · rcases err with _ | e
        · simp only [wrappedBody.step, wrappedBody.Write, hb, hw, if_true, Option.map_some',
            Option.some.injEq] at h
          subst h
          exact ⟨hb, rfl, rfl, by simp [BodyOp.ends], fun _ => rfl⟩
        · simp only [wrappedBody.step, wrappedBody.Write, hb, hw, if_true, Option.map_some',
            Option.some.injEq] at h
          subst h
          refine ⟨rfl, rfl, rfl, ?_, fun _ => rfl⟩
          simp [BodyOp.ends, Span.endCalls, List.count_append, List.count_cons]
  | close closeErr =>
    simp only [wrappedBody.step, Option.some.injEq] at h
    subst h
    unfold wrappedBody.Close
    rcases hb : wb.body with _ | b
    · simp [BodyOp.ends, Span.endCalls, List.count_append]
    · simp [BodyOp.ends, Span.endCalls, List.count_append]

/-- A call on a body that is not nil does not panic, unless it is a `Write` on
a body that is no writer. -/
theorem wrappedBody.step_isSome (lib : Lib) (wb : wrappedBody) (op : BodyOp) (b : Body)
    (hb : wb.body = some b) (hw : op.isWrite = true → b.isWriter = true) :
    ∃ wb1, wrappedBody.step lib wb op = some wb1 := by
  cases op with
  | read r =>
    simp only [wrappedBody.step, wrappedBody.Read_of_body lib wb r b hb, Option.map_some']
    exact ⟨_, rfl⟩
  | write n err =>
    have hw1 : b.isWriter = true := hw rfl
    rcases err with _ | e
    · simp only [wrappedBody.step, wrappedBody.Write, hb, hw1, if_true, Option.map_some']
      exact ⟨_, rfl⟩
    · simp only [wrappedBody.step, wrappedBody.Write, hb, hw1, if_true, Option.map_some']
      exact ⟨_, rfl⟩
  | close closeErr => exact ⟨_, rfl⟩

/-- What a sequence of calls that does not panic does to the span and the
buffer: the number of `End` calls grows by the number of calls that are a read
returning `io.EOF` or a `Close`; with capture off the buffer stays. -/
theorem wrappedBody.run_spec (lib : Lib) (ops : List BodyOp) :
    ∀ wb wb1 : wrappedBody, wrappedBody.run lib wb ops = some wb1 →
      wb1.body = wb.body ∧ wb1.metadataOnly = wb.metadataOnly ∧
      wb1.contentType = wb.contentType ∧
      Span.endCalls wb1.span = Span.endCalls wb.span + ops.countP BodyOp.ends ∧
      ((wb.metadataOnly = true ∨
          (shouldSkipResponseContentByType lib.ParseMediaType wb.contentType).1 = true) →
        wb1.responseBody = wb.responseBody) := by
  induction ops with
  | nil =>
    intro wb wb1 h
    simp only [wrappedBody.run, Option.some.injEq] at h
    subst h
    exact ⟨rfl, rfl, rfl, by simp, fun _ => rfl⟩
  | cons op ops ih =>
    intro wb wb1 h
    unfold wrappedBody.run at h
    rcases hs : wrappedBody.step lib wb op with _ | wb2
    · simp [hs] at h
    · simp only [hs] at h
      obtain ⟨a1, a2, a3, a4, a5⟩ := wrappedBody.step_spec lib wb wb2 op hs
      obtain ⟨b1, b2, b3, b4, b5⟩ := ih wb2 wb1 h
      refine ⟨b1.trans a1, b2.trans a2, b3.trans a3, ?_, ?_⟩
      · rw [b4, a4, List.countP_cons]
        omega
      · intro hc
        rw [b5 (by rw [a2, a3]; exact hc), a5 hc]

/-- A sequence of calls on a body that is not nil does not panic, unless it
holds a `Write` on a body that is no writer. -/
theorem wrappedBody.run_isSome (lib : Lib) (ops : List BodyOp) :
    ∀ (wb : wrappedBody) (b : Body), wb.body = some b →
      (∀ op ∈ ops, op.isWrite = true → b.isWriter = true) →
      ∃ wb1, wrappedBody.run lib wb ops = some wb1 := by
  induction ops with
  | nil => intro wb b _ _; exact ⟨wb, rfl⟩
  | cons op ops ih =>
    intro wb b hb hw
    obtain ⟨wb2, hs⟩ := wrappedBody.step_isSome lib wb op b hb (hw op (List.mem_cons_self op ops))
    obtain ⟨a1, _⟩ := wrappedBody.step_spec lib wb wb2 op hs
    obtain ⟨wb1, h1⟩ := ih wb2 b (a1.trans hb) (fun x hx => hw x (List.mem_cons_of_mem op hx))
    exact ⟨wb1, by unfold wrappedBody.run; rw [hs]; exact h1⟩

end otelhttp

namespace otelmux

/-! ### The request-body tap and the recorder of `otelmux` -/

/-- A read that does not capture (metadata-only, or a content type the
classifier excludes) leaves the buffer alone and never panics. -/
theorem bodyWrapper.mux_Read_of_noCapture (skip : Classifier) (w : bodyWrapper) (r : ReadResult)
    (h : w.metadataOnly = true ∨ (skip w.contentType).1 = true) :
    bodyWrapper.Read skip w r =
      some ({ w with read := wrapInt64 (w.read + r.n), err := r.err }, r.n, r.err) := by
  unfold bodyWrapper.Read
  by_cases hn : r.n > 0
  · rcases h with h | h
    · simp [hn, h]
    · cases hm : w.metadataOnly <;> simp [hn, h, hm]
  · simp [hn]

/-- A capturing read of a conforming result appends the bytes delivered. -/
theorem bodyWrapper.mux_Read_of_capture (skip : Classifier) (w : bodyWrapper) (r : ReadResult)
    (hm : w.metadataOnly = false) (hs : (skip w.contentType).1 = false) (hr : r.Conforms) :
    bodyWrapper.Read skip w r =
      some ({ w with requestBody := w.requestBody ++ r.bytes,
                     read := wrapInt64 (w.read + r.n), err := r.err }, r.n, r.err) := by
  unfold bodyWrapper.Read
  by_cases hn : r.n > 0
  · simp [hn, hm, hs, ReadResult.slice0_of_conforms r hr hn]
  · simp [hn, ReadResult.bytes_of_nonpos r hn]

/-- A read whose count is within the capacity of the buffer never panics, and
only the buffer depends on the capture decision. -/
theorem bodyWrapper.mux_Read_of_le_cap (skip : Classifier) (w : bodyWrapper) (r : ReadResult)
    (h : r.n ≤ r.b.cap) :
    ∃ body, bodyWrapper.Read skip w r =
      some ({ w with requestBody := body,
                     read := wrapInt64 (w.read + r.n), err := r.err }, r.n, r.err) := by
  by_cases hc : w.metadataOnly = true ∨ (skip w.contentType).1 = true
  · exact ⟨w.requestBody, bodyWrapper.mux_Read_of_noCapture skip w r hc⟩
  · have hm : w.metadataOnly = false := by
      cases hmo : w.metadataOnly
      · rfl
      · exact absurd (Or.inl hmo) hc
    have hs : (skip w.contentType).1 = false := by
      cases hsk : (skip w.contentType).1
      · rfl
      · exact absurd (Or.inr hsk) hc
    unfold bodyWrapper.Read
    by_cases hn : r.n > 0
    · refine ⟨w.requestBody ++ (r.b.elems ++ r.b.spare).take r.n.toNat, ?_⟩
      simp [hn, hm, hs, ByteSlice.slice0_isSome r.b r.n hn h]
    · exact ⟨w.requestBody, by simp [hn]⟩

/-- Capturing reads of conforming results append, in order, the bytes delivered. -/
theorem bodyWrapper.mux_reads_of_capture (skip : Classifier) (rs : List ReadResult) :
    ∀ w : bodyWrapper, w.metadataOnly = false → (skip w.contentType).1 = false →
      (∀ r ∈ rs, r.Conforms) →
      ∃ w1, bodyWrapper.reads skip w rs = some w1 ∧
        w1.requestBody = w.requestBody ++ (rs.map ReadResult.bytes).flatten := by
  induction rs with
  | nil => intro w _ _ _; exact ⟨w, rfl, by simp⟩
  | cons r rs ih =>
    intro w hm hs hr
    unfold bodyWrapper.reads
    rw [bodyWrapper.mux_Read_of_capture skip w r hm hs (hr r (List.mem_cons_self r rs))]
    obtain ⟨w1, h1, h2⟩ :=
      ih { w with requestBody := w.requestBody ++ r.bytes,
                  read := wrapInt64 (w.read + r.n), err := r.err }
        hm hs (fun x hx => hr x (List.mem_cons_of_mem r hx))
    exact ⟨w1, h1, by simp [h2]⟩

/-- What the hook `Write` leaves in the recorder: the flag `written` is set, the
status and the flag `metadataOnly` stay, and in metadata-only mode the buffer
stays. -/
theorem recordingResponseWriter.WriteHook_spec (skip : Classifier)
    (rrw : recordingResponseWriter) (c : WriteResult) :
    (rrw.WriteHook skip c).1.written = true ∧
    (rrw.WriteHook skip c).1.status = rrw.status ∧
    (rrw.WriteHook skip c).1.metadataOnly = rrw.metadataOnly ∧
    (rrw.metadataOnly = true → (rrw.WriteHook skip c).1.responseBody = rrw.responseBody) ∧
    (rrw.WriteHook skip c).2 = (c.n, c.err) := by
  unfold recordingResponseWriter.WriteHook
  cases hw : rrw.written <;> cases hm : rrw.metadataOnly <;>
    cases hs : (skip c.contentType).1 <;>
    by_cases hp : c.p.length > 0 <;> simp [hw, hm, hs, hp]

/-- What the hook `WriteHeader` leaves in the recorder: the flag `written` is
set, the status is the code passed when nothing was written before and the old
one otherwise, and the buffer and the flag `metadataOnly` stay. -/
theorem recordingResponseWriter.WriteHeaderHook_spec (rrw : recordingResponseWriter)
    (code : Int) :
    (rrw.WriteHeaderHook code).written = true ∧
    (rrw.WriteHeaderHook code).status = (if rrw.written then rrw.status else code) ∧
    (rrw.WriteHeaderHook code).metadataOnly = rrw.metadataOnly ∧
    (rrw.WriteHeaderHook code).responseBody = rrw.responseBody := by
  unfold recordingResponseWriter.WriteHeaderHook
  cases hw : rrw.written <;> simp [hw]

/-- In metadata-only mode no sequence of calls puts a byte into the buffer of a
recorder. -/
theorem recordingResponseWriter.run_keeps_buffer (skip : Classifier) (ops : List WriterOp) :
    ∀ rrw : recordingResponseWriter, rrw.metadataOnly = true →
      (rrw.run skip ops).responseBody = rrw.responseBody := by
  induction ops with
  | nil => intro rrw _; rfl
  | cons op ops ih =>
    intro rrw h
    unfold recordingResponseWriter.run
    rw [List.foldl_cons]
    have hstep : (recordingResponseWriter.step skip rrw op).metadataOnly = true ∧
        (recordingResponseWriter.step skip rrw op).responseBody = rrw.responseBody := by
      cases op with
      | write c =>
        obtain ⟨_, _, a3, a4, _⟩ := recordingResponseWriter.WriteHook_spec skip rrw c
        exact ⟨a3.trans h, a4 h⟩
      | writeHeader code =>
        obtain ⟨_, _, a3, a4⟩ := recordingResponseWriter.WriteHeaderHook_spec rrw code
        exact ⟨a3.trans h, a4⟩
    have := ih (recordingResponseWriter.step skip rrw op) hstep.1
    unfold recordingResponseWriter.run at this
    exact this.trans hstep.2

/-- Once something was written, no sequence of calls changes the status of a
recorder. -/
theorem recordingResponseWriter.run_status_of_written (skip : Classifier) (ops : List WriterOp) :
    ∀ rrw : recordingResponseWriter, rrw.written = true →
      (rrw.run skip ops).status = rrw.status := by
  induction ops with
  | nil => intro rrw _; rfl
  | cons op ops ih =>
    intro rrw h
    unfold recordingResponseWriter.run
    rw [List.foldl_cons]
    have hstep : (recordingResponseWriter.step skip rrw op).written = true ∧
        (recordingResponseWriter.step skip rrw op).status = rrw.status := by
      cases op with
      | write c =>
        obtain ⟨a1, a2, _⟩ := recordingResponseWriter.WriteHook_spec skip rrw c
        exact ⟨a1, a2⟩
      | writeHeader code =>
        obtain ⟨a1, a2, _⟩ := recordingResponseWriter.WriteHeaderHook_spec rrw code
        exact ⟨a1, a2.trans (by simp [h])⟩
    have := ih (recordingResponseWriter.step skip rrw op) hstep.1
    unfold recordingResponseWriter.run at this
    exact this.trans hstep.2

/-- The recorder that `getRRW` hands out, whatever the pool held: every field is
reset and the writer is the one passed. -/
theorem getRRW_fst (writer : Writer) (m : Bool) (pool : Pool) (pick : Option Nat) :
    (getRRW writer m pool pick).1 =
      { writer := some writer, written := false, status := 200, responseBody := [],
        metadataOnly := m } := rfl

end otelmux

namespace otelecho

/-! ### The request-body tap of `otelecho` -/

/-- A read whose count is within the capacity of the buffer never panics. -/
theorem bodyWrapper.echo_Read_of_le_cap (w : bodyWrapper) (r : ReadResult) (h : r.n ≤ r.b.cap) :
    ∃ body, bodyWrapper.Read w r =
      some ({ w with requestBody := body,
                     read := wrapInt64 (w.read + r.n), err := r.err }, r.n, r.err) := by
  unfold bodyWrapper.Read
  by_cases hn : r.n > 0
  · cases hm : w.metadataOnly
    · refine ⟨w.requestBody ++ (r.b.elems ++ r.b.spare).take r.n.toNat, ?_⟩
      simp [hn, hm, ByteSlice.slice0_isSome r.b r.n hn h]
    · exact ⟨w.requestBody, by simp [hn, hm]⟩
  · exact ⟨w.requestBody, by simp [hn]⟩

/-- Reads whose counts are within the capacities never panic. -/
theorem bodyWrapper.echo_reads_of_le_cap (rs : List ReadResult) :
    ∀ w : bodyWrapper, (∀ r ∈ rs, r.n ≤ r.b.cap) → ∃ w1, bodyWrapper.reads w rs = some w1 := by
  induction rs with
  | nil => intro w _; exact ⟨w, rfl⟩
  | cons r rs ih =>
    intro w hr
    unfold bodyWrapper.reads
    obtain ⟨body, hb⟩ := bodyWrapper.echo_Read_of_le_cap w r (hr r (List.mem_cons_self r rs))
    rw [hb]
    exact ih _ (fun x hx => hr x (List.mem_cons_of_mem r hx))

/-- The helper `collectRequestHeaders` keeps the calls already made on the span. -/
theorem collectRequestHeaders_mem (r : Request) (span : Span) (x : SpanEvent)
    (h : x ∈ span) : x ∈ collectRequestHeaders r span := by
  unfold collectRequestHeaders
  rcases r.headersJSON with _ | hs
  · exact h
  · exact List.mem_append_left _ h

end otelecho

namespace otelhttp

/-! ### The span of `RoundTrip` -/

/-- No filter rejects the request. -/
theorem filters_pass (t : Transport) (r : Request) (hf : ∀ f ∈ t.filters, f r = true) :
    t.filters.any (fun f => !f r) = false := by
  rw [List.any_eq_false]
  intro f hfm
  simp [hf f hfm]

/-- The helper `collectRequestHeaders` adds no `End`. -/
theorem collectRequestHeaders_endCalls (r : Request) (span : Span) :
    Span.endCalls (collectRequestHeaders r span) = Span.endCalls span := by
  unfold collectRequestHeaders
  rcases r.headersJSON with _ | h
  · rfl
  · simp [Span.endCalls, List.count_append, List.count_cons]

/-- The helper `collectRequestHeaders` sets no attribute `http.response.body`. -/
theorem collectRequestHeaders_setsKey (r : Request) (span : Span) :
    Span.setsKey (collectRequestHeaders r span) "http.response.body" =
      Span.setsKey span "http.response.body" := by
  unfold collectRequestHeaders
  rcases r.headersJSON with _ | h
  · rfl
  · have : ("http.request.headers" == "http.response.body") = false := by decide
    simp [Span.setsKey, SpanEvent.setsKey, this]

/-- The wrapped body that `newWrappedBody` creates holds the span and the body
passed, the flag passed and an empty buffer. -/
theorem newWrappedBody_fields (span : Span) (body : Option Body) (m : Bool) (ct : String) :
    (newWrappedBody span body m ct).1.span = span ∧
    (newWrappedBody span body m ct).1.body = body ∧
    (newWrappedBody span body m ct).1.metadataOnly = m ∧
    (newWrappedBody span body m ct).1.responseBody = [] := by
  unfold newWrappedBody
  split <;> exact ⟨rfl, rfl, rfl, rfl⟩

/-- When no filter rejects the request and the send succeeds with the response
`res`, `RoundTrip` returns `res` with the body that `newWrappedBody` makes of
the body of `res`, on a span that has received no `End`. -/
theorem RoundTrip_of_sent (lib : Lib) (t : Transport) (r : Request) (out : SendOutcome)
    (res : Response) (hf : ∀ f ∈ t.filters, f r = true) (herr : out.err = none)
    (hres : out.res = some res) (hreads : ∀ x ∈ out.bodyReads, x.n ≤ x.b.cap) :
    ∃ span : Span,
      t.RoundTrip lib r out =
        some (RoundTripResult.sent res
          (newWrappedBody span res.Body t.metadataOnly res.contentType).1
          (newWrappedBody span res.Body t.metadataOnly res.contentType).2) ∧
      Span.endCalls span = 0 := by
  have h0 := collectRequestHeaders_endCalls r []
  simp only [Span.endCalls, List.count_nil] at h0
  unfold Transport.RoundTrip
  rw [filters_pass t r hf]
  cases hb : r.hasBody
  · simp only [Bool.false_eq_true, if_false, herr, hres]
    refine ⟨_, rfl, ?_⟩
    cases hm : t.metadataOnly <;>
      simp [Span.endCalls, List.count_append, List.count_cons, h0]
  · obtain ⟨w1, h1⟩ := bodyWrapper.reads_of_le_cap lib.ParseMediaType out.bodyReads
      { contentType := r.contentType, metadataOnly := t.metadataOnly } hreads
    simp only [Bool.false_eq_true, if_false, if_true, h1, herr, hres]
    refine ⟨_, rfl, ?_⟩
    cases hm : t.metadataOnly <;> by_cases hl : w1.requestBody.length > 0 <;>
      simp [Span.endCalls, List.count_append, List.count_cons, h0, hl]

end otelhttp

namespace otelhttp

/-! ### Byte counts of the taps of `otelhttp` -/

/-- The bytes a conforming read delivered are `n` many. -/
theorem bytes_length_of_conforms (r : ReadResult) (h : r.Conforms) :
    (r.bytes.length : Int) = r.n := by
  obtain ⟨h0, h1⟩ := h
  unfold ByteSlice.len at h1
  unfold ReadResult.bytes
  rw [List.length_take]
  omega

/-- A conforming read never panics, and the buffer grows by at most `n`. -/
theorem bodyWrapper.Read_of_conforms (P : MediaTypeParser) (w : bodyWrapper) (r : ReadResult)
    (h : r.Conforms) :
    ∃ body, bodyWrapper.Read P w r =
        some ({ w with requestBody := body,
                       read := wrapInt64 (w.read + r.n), err := r.err,
                       recorded := w.recorded ++ [r.n] }, r.n, r.err) ∧
      (body.length : Int) ≤ w.requestBody.length + r.n := by
  by_cases hc : w.metadataOnly = true ∨ (shouldSkipResponseContentByType P w.contentType).1 = true
  · refine ⟨w.requestBody, bodyWrapper.Read_of_noCapture P w r hc, ?_⟩
    have := h.1
    omega
  · have hm : w.metadataOnly = false := by
      cases hmo : w.metadataOnly
      · rfl
      · exact absurd (Or.inl hmo) hc
    have hs : (shouldSkipResponseContentByType P w.contentType).1 = false := by
      cases hsk : (shouldSkipResponseContentByType P w.contentType).1
      · rfl
      · exact absurd (Or.inr hsk) hc
    refine ⟨w.requestBody ++ r.bytes, bodyWrapper.Read_of_capture P w r hm hs h, ?_⟩
    rw [List.length_append, Nat.cast_add, bytes_length_of_conforms r h]

/-- Conforming reads whose total stays within the `int64` range: the counter
`read` grows by the total, and the buffer is never longer than the counter. -/
theorem bodyWrapper.reads_count (P : MediaTypeParser) (rs : List ReadResult) :
    ∀ w : bodyWrapper, 0 ≤ w.read → (w.requestBody.length : Int) ≤ w.read →
      (∀ r ∈ rs, r.Conforms) → w.read + ReadResult.total rs < 2 ^ 63 →
      ∃ w1, bodyWrapper.reads P w rs = some w1 ∧ w1.read = w.read + ReadResult.total rs ∧
        (w1.requestBody.length : Int) ≤ w1.read := by
  induction rs with
  | nil =>
    intro w _ hl _ _
    exact ⟨w, rfl, by simp [ReadResult.total], hl⟩
  | cons r rs ih =>
    intro w h0 hl hr ht
    have hrc := hr r (List.mem_cons_self r rs)
    have htot : ReadResult.total (r :: rs) = r.n + ReadResult.total rs := by
      simp [ReadResult.total]
    have hnn : ∀ l : List ReadResult, (∀ x ∈ l, x.Conforms) → 0 ≤ ReadResult.total l := by
      intro l
      induction l with
      | nil => intro _; simp [ReadResult.total]
      | cons x l ihl =>
        intro hx
        have h1 := (hx x (List.mem_cons_self x l)).1
        have h2 := ihl (fun y hy => hx y (List.mem_cons_of_mem x hy))
        simp only [ReadResult.total, List.map_cons, List.sum_cons] at h2 ⊢
        omega
    have hrest := hnn rs (fun x hx => hr x (List.mem_cons_of_mem r hx))
    rw [htot] at ht
    obtain ⟨body, hb, hlen⟩ := bodyWrapper.Read_of_conforms P w r hrc
    have hw : wrapInt64 (w.read + r.n) = w.read + r.n :=
      wrapInt64_of_inRange _ (by have := hrc.1; omega) (by omega)
    unfold bodyWrapper.reads
    rw [hb]
    obtain ⟨w1, h1, h2, h3⟩ :=
      ih { w with requestBody := body, read := wrapInt64 (w.read + r.n), err := r.err,
                  recorded := w.recorded ++ [r.n] }
        (by show 0 ≤ wrapInt64 (w.read + r.n); rw [hw]; have := hrc.1; omega)
        (by show (body.length : Int) ≤ wrapInt64 (w.read + r.n); rw [hw]; omega)
        (fun x hx => hr x (List.mem_cons_of_mem r hx))
        (by show wrapInt64 (w.read + r.n) + ReadResult.total rs < 2 ^ 63; rw [hw]; omega)
    refine ⟨w1, h1, ?_, h3⟩
    rw [h2, htot]
    show wrapInt64 (w.read + r.n) + ReadResult.total rs = _
    rw [hw]
    omega

/-- The counter `written` after `Write`: the old one plus `n`, as an `int64`. -/
theorem respWriterWrapper.Write_written (P : MediaTypeParser) (w : respWriterWrapper)
    (c : WriteResult) :
    (respWriterWrapper.Write P w c).1.written = wrapInt64 (w.written + c.n) := by
  unfold respWriterWrapper.Write respWriterWrapper.WriteHeader
  cases hw : w.wroteHeader <;> cases hm : w.metadataOnly <;>
    cases hs : (shouldSkipResponseContentByType P c.contentType).1 <;>
    by_cases hp : c.p.length > 0 <;> simp [hw, hm, hs, hp]

/-- The buffer after `Write` is the old one, or the old one followed by all of
`p`. -/
theorem respWriterWrapper.Write_responseBody (P : MediaTypeParser) (w : respWriterWrapper)
    (c : WriteResult) :
    (respWriterWrapper.Write P w c).1.responseBody = w.responseBody ∨
    (respWriterWrapper.Write P w c).1.responseBody = w.responseBody ++ c.p := by
  unfold respWriterWrapper.Write respWriterWrapper.WriteHeader
  cases hw : w.wroteHeader <;> cases hm : w.metadataOnly <;>
    cases hs : (shouldSkipResponseContentByType P c.contentType).1 <;>
    by_cases hp : c.p.length > 0 <;> simp [hw, hm, hs, hp]

/-- The counter `written` is never changed by `WriteHeader`. -/
theorem respWriterWrapper.WriteHeader_written (w : respWriterWrapper) (code : Int) :
    (w.WriteHeader code).written = w.written := by
  unfold respWriterWrapper.WriteHeader
  split <;> rfl

/-- Complete writes whose total stays within the `int64` range: the counter
`written` grows by the total, and the buffer is never longer than the
counter. -/
theorem respWriterWrapper.run_count (P : MediaTypeParser) (ops : List WriterOp) :
    ∀ w : respWriterWrapper, 0 ≤ w.written → (w.responseBody.length : Int) ≤ w.written →
      (∀ op ∈ ops, op.Complete) → w.written + WriterOp.total ops < 2 ^ 63 →
      (w.run P ops).written = w.written + WriterOp.total ops ∧
        ((w.run P ops).responseBody.length : Int) ≤ (w.run P ops).written := by
  induction ops with
  | nil =>
    intro w _ hl _ _
    exact ⟨by simp [respWriterWrapper.run, WriterOp.total], hl⟩
  | cons op ops ih =>
    intro w h0 hl hc ht
    have hnn : ∀ l : List WriterOp, (∀ x ∈ l, x.Complete) → 0 ≤ WriterOp.total l := by
      intro l
      induction l with
      | nil => intro _; simp [WriterOp.total]
      | cons x l ihl =>
        intro hx
        have h1 : 0 ≤ x.count := by
          have := hx x (List.mem_cons_self x l)
          cases x with
          | write c => simp only [WriterOp.Complete] at this; simp [WriterOp.count, this]
          | writeHeader code => simp [WriterOp.count]
        have h2 := ihl (fun y hy => hx y (List.mem_cons_of_mem x hy))
        simp only [WriterOp.total, List.map_cons, List.sum_cons] at h2 ⊢
        omega
    have hrest := hnn ops (fun x hx => hc x (List.mem_cons_of_mem op hx))
    have htot : WriterOp.total (op :: ops) = op.count + WriterOp.total ops := by
      simp [WriterOp.total]
    rw [htot] at ht
    have hstep : (respWriterWrapper.step P w op).written = w.written + op.count ∧
        ((respWriterWrapper.step P w op).responseBody.length : Int) ≤
          (respWriterWrapper.step P w op).written ∧ 0 ≤ op.count := by
      cases op with
      | write c =>
        have hcc : c.n = c.p.length := hc (WriterOp.write c) (List.mem_cons_self _ ops)
        have hn0 : 0 ≤ c.n := by rw [hcc]; exact Int.natCast_nonneg _
        simp only [WriterOp.count] at ht ⊢
        have hw : wrapInt64 (w.written + c.n) = w.written + c.n :=
          wrapInt64_of_inRange _ (by omega) (by omega)
        simp only [respWriterWrapper.step, respWriterWrapper.Write_written, hw, true_and]
        refine ⟨?_, hn0⟩
        rcases respWriterWrapper.Write_responseBody P w c with hb | hb
        · rw [hb]; omega
        · rw [hb, List.length_append, Nat.cast_add]; omega
      | writeHeader code =>
        simp only [respWriterWrapper.step, respWriterWrapper.WriteHeader_written,
          respWriterWrapper.WriteHeader_responseBody, WriterOp.count, add_zero, true_and,
          le_refl, and_true]
        exact hl
    obtain ⟨s1, s2, s3⟩ := hstep
    have := ih (respWriterWrapper.step P w op) (by rw [s1]; omega) s2
      (fun x hx => hc x (List.mem_cons_of_mem op hx)) (by rw [s1]; omega)
    unfold respWriterWrapper.run at this ⊢
    rw [List.foldl_cons]
    refine ⟨?_, this.2⟩
    rw [this.1, s1, htot]
    omega

end otelhttp

namespace otelecho

/-! ### Capture by the request-body tap of `otelecho` -/

/-- With metadata-only off, a conforming read appends the bytes delivered,
whatever the content type of the request. -/
theorem bodyWrapper.echo_Read_of_capture (w : bodyWrapper) (r : ReadResult)
    (hm : w.metadataOnly = false) (hr : r.Conforms) :
    bodyWrapper.Read w r =
      some ({ w with requestBody := w.requestBody ++ r.bytes,
                     read := wrapInt64 (w.read + r.n), err := r.err }, r.n, r.err) := by
  unfold bodyWrapper.Read
  by_cases hn : r.n > 0
  · simp [hn, hm, ReadResult.slice0_of_conforms r hr hn]
  · simp [hn, ReadResult.bytes_of_nonpos r hn]

/-- With metadata-only off, conforming reads append, in order, the bytes
delivered. -/
theorem bodyWrapper.echo_reads_of_capture (rs : List ReadResult) :
    ∀ w : bodyWrapper, w.metadataOnly = false → (∀ r ∈ rs, r.Conforms) →
      ∃ w1, bodyWrapper.reads w rs = some w1 ∧
        w1.requestBody = w.requestBody ++ (rs.map ReadResult.bytes).flatten := by
  induction rs with
  | nil => intro w _ _; exact ⟨w, rfl, by simp⟩
  | cons r rs ih =>
    intro w hm hr
    unfold bodyWrapper.reads
    rw [bodyWrapper.echo_Read_of_capture w r hm (hr r (List.mem_cons_self r rs))]
    obtain ⟨w1, h1, h2⟩ :=
      ih { w with requestBody := w.requestBody ++ r.bytes,
                  read := wrapInt64 (w.read + r.n), err := r.err }
        hm (fun x hx => hr x (List.mem_cons_of_mem r hx))
    exact ⟨w1, h1, by simp [h2]⟩

end otelecho

namespace otelhttp

/-! ### Where the attribute `http.response.body` is set -/

/-- The calls of a `Read` whose underlying read did not return `io.EOF` set no
attribute. -/
theorem wrappedBody.spanCallsOfRead_setsKey (lib : Lib) (m : Bool) (buf : List UInt8)
    (err : Option GoError) (h : err ≠ some GoError.EOF) (key : String) :
    Span.setsKey (wrappedBody.spanCallsOfRead lib m buf err) key = false := by
  rcases err with _ | (_ | msg)
  · rfl
  · exact absurd rfl h
  · simp [wrappedBody.spanCallsOfRead, Span.setsKey, SpanEvent.setsKey]

/-- A call that does not panic and is not a read returning `io.EOF` sets no
attribute on the span. -/
theorem wrappedBody.step_setsKey (lib : Lib) (wb wb1 : wrappedBody) (op : BodyOp)
    (h : wrappedBody.step lib wb op = some wb1) (hop : op.isEOFRead = false) (key : String) :
    Span.setsKey wb1.span key = Span.setsKey wb.span key := by
  cases op with
  | read r =>
    rcases hb : wb.body with _ | b
    · simp [wrappedBody.step, wrappedBody.Read, hb] at h
    · simp only [wrappedBody.step, wrappedBody.Read_of_body lib wb r b hb, Option.map_some',
        Option.some.injEq] at h
      subst h
      have hne : r.err ≠ some GoError.EOF := by simpa [BodyOp.isEOFRead] using hop
      have := wrappedBody.spanCallsOfRead_setsKey lib wb.metadataOnly
        (wb.bufferAfterRead lib r) r.err hne key
      simp only [Span.setsKey] at this ⊢
      rw [List.any_append, this, Bool.or_false]
  | write n err =>
    rcases hb : wb.body with _ | b
    · simp [wrappedBody.step, wrappedBody.Write, hb] at h
    · cases hw : b.isWriter
      · simp [wrappedBody.step, wrappedBody.Write, hb, hw] at h
      · rcases err with _ | e
        · simp only [wrappedBody.step, wrappedBody.Write, hb, hw, if_true, Option.map_some',
            Option.some.injEq] at h
          subst h
          rfl
        · simp only [wrappedBody.step, wrappedBody.Write, hb, hw, if_true, Option.map_some',
            Option.some.injEq] at h
          subst h
          simp [Span.setsKey, SpanEvent.setsKey]
  | close closeErr =>
    simp only [wrappedBody.step, Option.some.injEq] at h
    subst h
    unfold wrappedBody.Close
    rcases hb : wb.body with _ | b <;> simp [Span.setsKey, SpanEvent.setsKey]

/-- A sequence of calls that does not panic and holds no read returning `io.EOF`
sets no attribute on the span. -/
theorem wrappedBody.run_setsKey (lib : Lib) (ops : List BodyOp) (key : String) :
    ∀ wb wb1 : wrappedBody, wrappedBody.run lib wb ops = some wb1 →
      (∀ op ∈ ops, op.isEOFRead = false) →
      Span.setsKey wb1.span key = Span.setsKey wb.span key := by
  induction ops with
  | nil =>
    intro wb wb1 h _
    simp only [wrappedBody.run, Option.some.injEq] at h
    subst h
    rfl
  | cons op ops ih =>
    intro wb wb1 h hops
    unfold wrappedBody.run at h
    rcases hs : wrappedBody.step lib wb op with _ | wb2
    · simp [hs] at h
    · simp only [hs] at h
      rw [ih wb2 wb1 h (fun x hx => hops x (List.mem_cons_of_mem op hx)),
        wrappedBody.step_setsKey lib wb wb2 op hs (hops op (List.mem_cons_self op ops)) key]

/-- When no filter rejects the request and the send succeeds with the response
`res`, the span that `RoundTrip` hands to `newWrappedBody` has received no
`End` and no attribute `http.response.body`, the `semconv` attributes having
no such key and the redactor keeping the key of an attribute. -/
theorem RoundTrip_of_sent_span (lib : Lib) (t : Transport) (r : Request) (out : SendOutcome)
    (res : Response) (hf : ∀ f ∈ t.filters, f r = true) (herr : out.err = none)
    (hres : out.res = some res) (hreads : ∀ x ∈ out.bodyReads, x.n ≤ x.b.cap)
    (hsem1 : ∀ a ∈ lib.HTTPClientAttributesFromHTTPRequest r, a.Key ≠ "http.response.body")
    (hsem2 : ∀ a ∈ lib.HTTPAttributesFromHTTPStatusCode res.StatusCode,
      a.Key ≠ "http.response.body")
    (hobf : ∀ kv, (lib.ObfuscateAttributeValue kv).Key = kv.Key) :
    ∃ span : Span,
      t.RoundTrip lib r out =
        some (RoundTripResult.sent res
          (newWrappedBody span res.Body t.metadataOnly res.contentType).1
          (newWrappedBody span res.Body t.metadataOnly res.contentType).2) ∧
      Span.endCalls span = 0 ∧ Span.setsKey span "http.response.body" = false := by
  have h0 := collectRequestHeaders_endCalls r []
  simp only [Span.endCalls, List.count_nil] at h0
  have k0 := collectRequestHeaders_setsKey r []
  simp only [Span.setsKey, List.any_nil] at k0
  have k1 : (lib.HTTPClientAttributesFromHTTPRequest r).any
      (fun a => a.Key == "http.response.body") = false := by
    rw [List.any_eq_false]
    intro a ha
    simpa using hsem1 a ha
  have k2 : (lib.HTTPAttributesFromHTTPStatusCode res.StatusCode).any
      (fun a => a.Key == "http.response.body") = false := by
    rw [List.any_eq_false]
    intro a ha
    simpa using hsem2 a ha
  have k3 : ∀ v, ((lib.ObfuscateAttributeValue ⟨"http.request.body", v⟩).Key ==
      "http.response.body") = false := by
    intro v
    rw [hobf]
    show ("http.request.body" == "http.response.body") = false
    decide
  unfold Transport.RoundTrip
  rw [filters_pass t r hf]
  cases hb : r.hasBody
  · simp only [Bool.false_eq_true, if_false, herr, hres]
    refine ⟨_, rfl, ?_, ?_⟩
    · cases hm : t.metadataOnly <;>
        simp [Span.endCalls, List.count_append, List.count_cons, h0]
    · cases hm : t.metadataOnly <;>
        simp [Span.setsKey, SpanEvent.setsKey, List.any_append, k0, k1, k2]
  · obtain ⟨w1, h1⟩ := bodyWrapper.reads_of_le_cap lib.ParseMediaType out.bodyReads
      { contentType := r.contentType, metadataOnly := t.metadataOnly } hreads
    simp only [Bool.false_eq_true, if_false, if_true, h1, herr, hres]
    refine ⟨_, rfl, ?_, ?_⟩
    · cases hm : t.metadataOnly <;> by_cases hl : w1.requestBody.length > 0 <;>
        simp [Span.endCalls, List.count_append, List.count_cons, h0, hl]
    · cases hm : t.metadataOnly <;> by_cases hl : w1.requestBody.length > 0 <;>
        simp [Span.setsKey, SpanEvent.setsKey, List.any_append, k0, k1, k2, k3, hl]

end otelhttp

/-! ## The claims -/

/-- C1. For a content type that is empty or that the media-type parser accepts,
the classifier answers exclude exactly when the string is non-empty and its
main and sub type are in the exclusion table of the specification; the error
is nil in every such case, the empty string included. -/
theorem shouldSkipResponseContentByType_table (ParseMediaType : otelhttp.MediaTypeParser)
    (contentType : String)
    (h : contentType = "" ∨ (ParseMediaType contentType).2 = none) :
    otelhttp.shouldSkipResponseContentByType ParseMediaType contentType =
      (decide (contentType ≠ "" ∧
        otelhttp.specExcluded (otelhttp.mainTypeOf (ParseMediaType contentType).1)
          (otelhttp.subTypeOf (ParseMediaType contentType).1)), none) := by
  unfold otelhttp.shouldSkipResponseContentByType
  by_cases hc : contentType = ""
  · simp [hc]
  · have hp : (ParseMediaType contentType).2 = none := h.resolve_left hc
    rcases hpe : ParseMediaType contentType with ⟨mediaType, err⟩
    rw [hpe] at hp
    simp only at hp
    subst hp
    have key := otelhttp.classify_eq_specExcluded (otelhttp.mainTypeOf mediaType)
      (otelhttp.subTypeOf mediaType)
    simp only [hc, if_false, ne_eq, not_false_eq_true, true_and]
    exact key

/-- Witness of C1 at `image/png`, with a parser that accepts its argument as the
media type (which is what `mime.ParseMediaType` answers for this string). -/
theorem shouldSkipResponseContentByType_table_witness :
    otelhttp.shouldSkipResponseContentByType Sample.acceptVerbatim "image/png" = (true, none) ∧
    otelhttp.shouldSkipResponseContentByType Sample.acceptVerbatim "image/png" =
      (decide ("image/png" ≠ "" ∧
        otelhttp.specExcluded (otelhttp.mainTypeOf "image/png")
          (otelhttp.subTypeOf "image/png")), none) :=
  ⟨by decide,
   shouldSkipResponseContentByType_table Sample.acceptVerbatim "image/png" (Or.inr rfl)⟩

/-- C2. A non-empty content type that the media-type parser rejects makes the
classifier answer exclude together with the parse error; the three callers
drop that error: `bodyWrapper.Read`, `respWriterWrapper.Write` and
`wrappedBody.Read` return what the underlying stream returned and leave the
capture buffer as it was. -/
theorem parse_failure_excludes_and_is_dropped (lib : otelhttp.Lib) (contentType : String) (e : GoError)
    (hne : contentType ≠ "") (hfail : (lib.ParseMediaType contentType).2 = some e)
    (w : otelhttp.bodyWrapper) (hw : w.contentType = contentType) (r : ReadResult)
    (rw : otelhttp.respWriterWrapper) (c : WriteResult) (hc : c.contentType = contentType)
    (wb : otelhttp.wrappedBody) (hwb : wb.contentType = contentType) (b : Body)
    (hb : wb.body = some b) :
    otelhttp.shouldSkipResponseContentByType lib.ParseMediaType contentType = (true, some e) ∧
    (∃ w1, otelhttp.bodyWrapper.Read lib.ParseMediaType w r = some (w1, r.n, r.err) ∧
      w1.requestBody = w.requestBody) ∧
    ((otelhttp.respWriterWrapper.Write lib.ParseMediaType rw c).2 = (c.n, c.err) ∧
      (otelhttp.respWriterWrapper.Write lib.ParseMediaType rw c).1.responseBody = rw.responseBody) ∧
    (∃ wb1, otelhttp.wrappedBody.Read lib wb r = some (wb1, r.n, r.err) ∧
      wb1.responseBody = wb.responseBody) := by
  have hskip : otelhttp.shouldSkipResponseContentByType lib.ParseMediaType contentType = (true, some e) := by
    unfold otelhttp.shouldSkipResponseContentByType
    rw [if_neg hne]
    rcases hp : lib.ParseMediaType contentType with ⟨mt, err⟩
    rw [hp] at hfail
    simp only at hfail
    subst hfail
    rfl
  have h1 : (otelhttp.shouldSkipResponseContentByType lib.ParseMediaType contentType).1 = true := by
    rw [hskip]
  refine ⟨hskip, ?_, ⟨rfl, ?_⟩, ?_⟩
  · exact ⟨_, otelhttp.bodyWrapper.Read_of_noCapture lib.ParseMediaType w r (Or.inr (hw ▸ h1)), rfl⟩
  · exact otelhttp.respWriterWrapper.Write_of_noCapture lib.ParseMediaType rw c (Or.inr (hc ▸ h1))
  · exact ⟨_, otelhttp.wrappedBody.Read_of_body lib wb r b hb,
      otelhttp.wrappedBody.bufferAfterRead_of_noCapture lib wb r (Or.inr (hwb ▸ h1))⟩

/-- Witness of C2: the content type `;`, rejected with `mime: no media type`, on
wrappers that already hold the byte `1`, for a read of two bytes. -/
theorem parse_failure_excludes_and_is_dropped_witness :
    (";" ≠ "" ∧ (Sample.libRejecting.ParseMediaType ";").2 =
        some (GoError.other "mime: no media type")) ∧
    otelhttp.shouldSkipResponseContentByType Sample.libRejecting.ParseMediaType ";" =
      (true, some (GoError.other "mime: no media type")) :=
  ⟨⟨by decide, rfl⟩,
   (parse_failure_excludes_and_is_dropped Sample.libRejecting ";"
      (GoError.other "mime: no media type") (by decide) rfl
      { contentType := ";", requestBody := [1] } rfl Sample.readBraces
      { responseBody := [1] } { Sample.writeBraces with contentType := ";" } rfl
      { span := [], body := some { isWriter := false }, contentType := ";", responseBody := [1] }
      rfl { isWriter := false } rfl).1⟩

/-- C3. On a `bodyWrapper` of `otelhttp` or of `otelmux` that starts with an empty
buffer, with metadata-only off and a content type the classifier allows, a
sequence of reads that each return `0 <= n <= len(b)` leaves in `requestBody`
the concatenation, in read order, of the slices `b[0:n]`; so two sequences of
reads that deliver the same byte stream in different chunks leave the same
buffer. -/
theorem reads_capture_concatenation (P : otelhttp.MediaTypeParser) (skip : otelmux.Classifier)
    (w : otelhttp.bodyWrapper) (wm : otelmux.bodyWrapper) (rs rs2 : List ReadResult)
    (hw0 : w.requestBody = []) (hwm : w.metadataOnly = false)
    (hws : (otelhttp.shouldSkipResponseContentByType P w.contentType).1 = false)
    (hm0 : wm.requestBody = []) (hmm : wm.metadataOnly = false)
    (hms : (skip wm.contentType).1 = false)
    (hrs : ∀ r ∈ rs, r.Conforms) (hrs2 : ∀ r ∈ rs2, r.Conforms) :
    (∃ w1, otelhttp.bodyWrapper.reads P w rs = some w1 ∧
      w1.requestBody = (rs.map ReadResult.bytes).flatten) ∧
    (∃ w1, otelmux.bodyWrapper.reads skip wm rs = some w1 ∧
      w1.requestBody = (rs.map ReadResult.bytes).flatten) ∧
    ((rs.map ReadResult.bytes).flatten = (rs2.map ReadResult.bytes).flatten →
      (∃ w1 w2, otelhttp.bodyWrapper.reads P w rs = some w1 ∧
        otelhttp.bodyWrapper.reads P w rs2 = some w2 ∧ w1.requestBody = w2.requestBody) ∧
      (∃ w1 w2, otelmux.bodyWrapper.reads skip wm rs = some w1 ∧
        otelmux.bodyWrapper.reads skip wm rs2 = some w2 ∧ w1.requestBody = w2.requestBody)) := by
  obtain ⟨a, ha1, ha2⟩ := otelhttp.bodyWrapper.reads_of_capture P rs w hwm hws hrs
  obtain ⟨a2, hb1, hb2⟩ := otelhttp.bodyWrapper.reads_of_capture P rs2 w hwm hws hrs2
  obtain ⟨c, hc1, hc2⟩ := otelmux.bodyWrapper.mux_reads_of_capture skip rs wm hmm hms hrs
  obtain ⟨c2, hd1, hd2⟩ := otelmux.bodyWrapper.mux_reads_of_capture skip rs2 wm hmm hms hrs2
  rw [hw0, List.nil_append] at ha2 hb2
  rw [hm0, List.nil_append] at hc2 hd2
  refine ⟨⟨a, ha1, ha2⟩, ⟨c, hc1, hc2⟩, fun heq => ⟨⟨a, a2, ha1, hb1, ?_⟩, ⟨c, c2, hc1, hd1, ?_⟩⟩⟩
  · rw [ha2, hb2, heq]
  · rw [hc2, hd2, heq]

/-- Witness of C3: the bytes `1 2 3` read as `1 2` then `3`, and read as `1`
then `2 3`, into fresh wrappers with the content type `application/json`. -/
theorem reads_capture_concatenation_witness :
    otelhttp.bodyWrapper.reads Sample.acceptVerbatim { contentType := "application/json" }
        [{ b := { elems := [1, 2] }, n := 2, err := none },
         { b := { elems := [3, 0] }, n := 1, err := none }] =
      some { contentType := "application/json", requestBody := [1, 2, 3], read := 3,
             recorded := [2, 1] } ∧
    ∃ w1, otelhttp.bodyWrapper.reads Sample.acceptVerbatim { contentType := "application/json" }
        [{ b := { elems := [1, 2] }, n := 2, err := none },
         { b := { elems := [3, 0] }, n := 1, err := none }] = some w1 ∧
      w1.requestBody =
        (([{ b := { elems := [1, 2] }, n := 2, err := none },
           { b := { elems := [3, 0] }, n := 1, err := none }] : List ReadResult).map
          ReadResult.bytes).flatten :=
  ⟨by decide,
   (reads_capture_concatenation Sample.acceptVerbatim Sample.allowAll
      { contentType := "application/json" } { contentType := "application/json" }
      [{ b := { elems := [1, 2] }, n := 2, err := none },
       { b := { elems := [3, 0] }, n := 1, err := none }]
      [{ b := { elems := [1, 0] }, n := 1, err := none },
       { b := { elems := [2, 3] }, n := 2, err := none }]
      rfl rfl (by decide) rfl rfl rfl (by decide) (by decide)).1⟩

/-- C4. A stream tap with `metadataOnly = true` and an empty buffer still has an
empty buffer after every sequence of calls, whatever the content type and the
bytes: the `bodyWrapper` and the `respWriterWrapper` of `otelhttp`, the
`wrappedBody` of the transport (as `newWrappedBody` creates it, and for every
run of `Read`, `Write` and `Close` on it, which does not panic on a body that
is not nil and is a writer when written to), and the recorder that `getRRW` of
`otelmux` hands out, under its hooks. -/
theorem metadataOnly_keeps_buffer_empty (lib : otelhttp.Lib) (skip : otelmux.Classifier)
    (w : otelhttp.bodyWrapper) (hw : w.metadataOnly = true) (hw0 : w.requestBody = [])
    (rs : List ReadResult)
    (rw : otelhttp.respWriterWrapper) (hrw : rw.metadataOnly = true)
    (hrw0 : rw.responseBody = []) (ops : List WriterOp)
    (wb : otelhttp.wrappedBody) (hwb : wb.metadataOnly = true) (hwb0 : wb.responseBody = [])
    (bops : List otelhttp.BodyOp)
    (span : Span) (body : Option Body) (contentType : String)
    (writer : otelmux.Writer) (pool : otelmux.Pool) (pick : Option Nat) :
    (∃ w1, otelhttp.bodyWrapper.reads lib.ParseMediaType w rs = some w1 ∧ w1.requestBody = []) ∧
    (rw.run lib.ParseMediaType ops).responseBody = [] ∧
    (∀ wb1, otelhttp.wrappedBody.run lib wb bops = some wb1 → wb1.responseBody = []) ∧
    (∀ b, wb.body = some b → (∀ op ∈ bops, op.isWrite = true → b.isWriter = true) →
      ∃ wb1, otelhttp.wrappedBody.run lib wb bops = some wb1 ∧ wb1.responseBody = []) ∧
    ((otelhttp.newWrappedBody span body true contentType).1.metadataOnly = true ∧
      (otelhttp.newWrappedBody span body true contentType).1.responseBody = []) ∧
    ((otelmux.getRRW writer true pool pick).1.run skip ops).responseBody = [] := by
  have hwbrun : ∀ wb1, otelhttp.wrappedBody.run lib wb bops = some wb1 → wb1.responseBody = [] := by
    intro wb1 h
    exact ((otelhttp.wrappedBody.run_spec lib bops wb wb1 h).2.2.2.2 (Or.inl hwb)).trans hwb0
  refine ⟨?_, ?_, hwbrun, ?_, ?_, ?_⟩
  · obtain ⟨w1, h1, h2, _⟩ :=
      otelhttp.bodyWrapper.reads_of_noCapture lib.ParseMediaType rs w (Or.inl hw)
    exact ⟨w1, h1, h2.trans hw0⟩
  · exact ((otelhttp.respWriterWrapper.run_of_metadataOnly lib.ParseMediaType ops rw hrw).1).trans
      hrw0
  · intro b hb hwr
    obtain ⟨wb1, h1⟩ := otelhttp.wrappedBody.run_isSome lib bops wb b hb hwr
    exact ⟨wb1, h1, hwbrun wb1 h1⟩
  · unfold otelhttp.newWrappedBody
    split <;> exact ⟨rfl, rfl⟩
  · have := otelmux.recordingResponseWriter.run_keeps_buffer skip ops
      (otelmux.getRRW writer true pool pick).1 (by rw [otelmux.getRRW_fst])
    rw [this, otelmux.getRRW_fst]

/-- Witness of C4: metadata-only taps with the content type `application/json`
through which the bytes `{}` pass. -/
theorem metadataOnly_keeps_buffer_empty_witness :
    otelhttp.bodyWrapper.reads Sample.lib.ParseMediaType
        { metadataOnly := true, contentType := "application/json" }
        [Sample.readBraces, Sample.readEOF] =
      some { metadataOnly := true, contentType := "application/json", read := 2,
             err := some GoError.EOF, recorded := [2, 0] } ∧
    ∃ w1, otelhttp.bodyWrapper.reads Sample.lib.ParseMediaType
        { metadataOnly := true, contentType := "application/json" }
        [Sample.readBraces, Sample.readEOF] = some w1 ∧ w1.requestBody = [] :=
  ⟨by decide,
   (metadataOnly_keeps_buffer_empty Sample.lib Sample.allowAll
      { metadataOnly := true, contentType := "application/json" } rfl rfl
      [Sample.readBraces, Sample.readEOF]
      { metadataOnly := true } rfl rfl [WriterOp.write Sample.writeBraces]
      { span := [], body := some { isWriter := false }, metadataOnly := true,
        contentType := "application/json" } rfl rfl
      [otelhttp.BodyOp.read Sample.readBraces, otelhttp.BodyOp.read Sample.readEOF]
      [] (some { isWriter := false }) "application/json" 0 [] none).1⟩

/-- C5, as the code has it. For every result `(n, err)` of the underlying read
with `n` within the capacity of the buffer (as the contract of `io.Reader`, `0 <= n <= len(b)`,
has it), `bodyWrapper.Read` of `otelhttp` and of `otelmux` returns `(n, err)`,
adds `n` to the counter `read` (an `int64` addition, exact within the `int64`
range), stores `err` as the last error and, in `otelhttp`, hands `n` to
`record`; and this is so for every value of `metadataOnly` and of
`contentType`. -/
theorem bodyWrapper_Read_passes_through (P : otelhttp.MediaTypeParser)
    (skip : otelmux.Classifier) (w : otelhttp.bodyWrapper) (wm : otelmux.bodyWrapper)
    (r : ReadResult) (h : r.n ≤ r.b.cap) :
    (∀ (metadataOnly : Bool) (contentType : String),
      ∃ w1, otelhttp.bodyWrapper.Read P
          { w with metadataOnly := metadataOnly, contentType := contentType } r =
          some (w1, r.n, r.err) ∧
        w1.read = wrapInt64 (w.read + r.n) ∧ w1.err = r.err ∧
        w1.recorded = w.recorded ++ [r.n]) ∧
    (∀ (metadataOnly : Bool) (contentType : String),
      ∃ w1, otelmux.bodyWrapper.Read skip
          { wm with metadataOnly := metadataOnly, contentType := contentType } r =
          some (w1, r.n, r.err) ∧
        w1.read = wrapInt64 (wm.read + r.n) ∧ w1.err = r.err) ∧
    (∀ x : Int, -2 ^ 63 ≤ x + r.n → x + r.n < 2 ^ 63 → wrapInt64 (x + r.n) = x + r.n) := by
  refine ⟨fun m ct => ?_, fun m ct => ?_, fun x h1 h2 => wrapInt64_of_inRange _ h1 h2⟩
  · obtain ⟨body, hb⟩ := otelhttp.bodyWrapper.Read_of_le_cap P
      { w with metadataOnly := m, contentType := ct } r h
    exact ⟨_, hb, rfl, rfl, rfl⟩
  · obtain ⟨body, hb⟩ := otelmux.bodyWrapper.mux_Read_of_le_cap skip
      { wm with metadataOnly := m, contentType := ct } r h
    exact ⟨_, hb, rfl, rfl⟩

/-- Witness of C5 as the code has it: a read of two bytes that also returns `io.EOF`, on wrappers
that have counted five bytes. -/
theorem bodyWrapper_Read_passes_through_witness :
    ((2 : Int) ≤ (ByteSlice.mk [123, 125, 0, 0] []).cap) ∧
    ∀ (metadataOnly : Bool) (contentType : String),
      ∃ w1, otelhttp.bodyWrapper.Read Sample.acceptVerbatim
          { ({ read := 5 } : otelhttp.bodyWrapper) with
            metadataOnly := metadataOnly, contentType := contentType }
          { Sample.readBraces with err := some GoError.EOF } =
          some (w1, 2, some GoError.EOF) ∧
        w1.read = wrapInt64 (5 + 2) ∧ w1.err = some GoError.EOF ∧
        w1.recorded = [] ++ [2] :=
  ⟨by decide,
   (bodyWrapper_Read_passes_through Sample.acceptVerbatim Sample.allowAll
      { read := 5 } { read := 5 } { Sample.readBraces with err := some GoError.EOF }
      (by decide)).1⟩

/-- C5 fails as stated: on an underlying read that reports `n = 3` for a buffer
of capacity two, `bodyWrapper.Read` of `otelhttp` panics in `b[0:n]` when it
captures (metadata-only off, content type `application/json`) and returns
`(3, nil)` with `read = 3` when metadata-only is on; so what `Read` returns is
not the same for every value of `metadataOnly`. -/
theorem bodyWrapper_Read_beyond_cap_depends_on_capture :
    Sample.readBeyondCap.b.cap = 2 ∧
    otelhttp.bodyWrapper.Read Sample.acceptVerbatim
        { metadataOnly := false, contentType := "application/json" } Sample.readBeyondCap =
      none ∧
    otelhttp.bodyWrapper.Read Sample.acceptVerbatim
        { metadataOnly := true, contentType := "application/json" } Sample.readBeyondCap =
      some ({ metadataOnly := true, contentType := "application/json", read := 3,
              recorded := [3] }, 3, none) := by
  refine ⟨?_, ?_, ?_⟩ <;> decide

/-- C6, as the code has it. When no filter rejects the request and the send
succeeds, `RoundTrip` returns the response with a wrapped body whose span has
received no `End`; every sequence of calls on that body (which does not panic
on a body that is not nil and is a writer when written to) makes the span
receive one `End` for each read that returns `io.EOF` and one for each
`Close`: the number of `End` calls is the number of such calls, so at least
one as soon as there is one, and more than one when there are several. -/
theorem RoundTrip_body_End_per_EOF_and_Close (lib : otelhttp.Lib) (t : otelhttp.Transport) (r : Request)
    (out : otelhttp.SendOutcome) (res : Response) (b : Body) (ops : List otelhttp.BodyOp)
    (hf : ∀ f ∈ t.filters, f r = true) (herr : out.err = none) (hres : out.res = some res)
    (hreads : ∀ x ∈ out.bodyReads, x.n ≤ x.b.cap) (hbody : res.Body = some b)
    (hops : ∀ op ∈ ops, op.isWrite = true → b.isWriter = true) :
    ∃ wb offersWrite wb1,
      t.RoundTrip lib r out = some (otelhttp.RoundTripResult.sent res wb offersWrite) ∧
      Span.endCalls wb.span = 0 ∧
      otelhttp.wrappedBody.run lib wb ops = some wb1 ∧
      Span.endCalls wb1.span = ops.countP otelhttp.BodyOp.ends ∧
      ((∃ op ∈ ops, op.ends = true) → 1 ≤ Span.endCalls wb1.span) := by
  obtain ⟨span, h1, h2⟩ := otelhttp.RoundTrip_of_sent lib t r out res hf herr hres hreads
  obtain ⟨f1, f2, _, _⟩ := otelhttp.newWrappedBody_fields span res.Body t.metadataOnly res.contentType
  obtain ⟨wb1, hrun⟩ := otelhttp.wrappedBody.run_isSome lib ops
    (otelhttp.newWrappedBody span res.Body t.metadataOnly res.contentType).1 b (f2.trans hbody) hops
  have hspec := (otelhttp.wrappedBody.run_spec lib ops _ wb1 hrun).2.2.2.1
  rw [f1, h2, Nat.zero_add] at hspec
  refine ⟨_, _, wb1, h1, by rw [f1]; exact h2, hrun, hspec, ?_⟩
  rintro ⟨op, hop, he⟩
  rw [hspec]
  exact List.countP_pos_iff.mpr ⟨op, hop, he⟩

/-- Witness of C6 as the code has it: a GET answered with `200`, whose body is
read to `io.EOF` and then closed. -/
theorem RoundTrip_body_End_per_EOF_and_Close_witness :
    ∃ wb offersWrite wb1,
      otelhttp.Transport.RoundTrip Sample.lib { filters := [], metadataOnly := false }
          Sample.getNoBody { bodyReads := [], res := some Sample.okJSON, err := none } =
        some (otelhttp.RoundTripResult.sent Sample.okJSON wb offersWrite) ∧
      Span.endCalls wb.span = 0 ∧
      otelhttp.wrappedBody.run Sample.lib wb
          [otelhttp.BodyOp.read Sample.readBraces, otelhttp.BodyOp.read Sample.readEOF,
           otelhttp.BodyOp.close none] = some wb1 ∧
      Span.endCalls wb1.span =
        List.countP otelhttp.BodyOp.ends
          [otelhttp.BodyOp.read Sample.readBraces, otelhttp.BodyOp.read Sample.readEOF,
           otelhttp.BodyOp.close none] ∧
      ((∃ op ∈ [otelhttp.BodyOp.read Sample.readBraces, otelhttp.BodyOp.read Sample.readEOF,
           otelhttp.BodyOp.close none], op.ends = true) → 1 ≤ Span.endCalls wb1.span) :=
  RoundTrip_body_End_per_EOF_and_Close Sample.lib { filters := [], metadataOnly := false }
    Sample.getNoBody { bodyReads := [], res := some Sample.okJSON, err := none } Sample.okJSON
    { isWriter := false }
    [otelhttp.BodyOp.read Sample.readBraces, otelhttp.BodyOp.read Sample.readEOF,
     otelhttp.BodyOp.close none]
    (by simp) rfl rfl (by simp) rfl (by decide)

/-- C6 fails as stated: after a successful send, a read that returns `io.EOF`
followed by a `Close` makes the span receive `End` twice, not once. -/
theorem RoundTrip_body_EOF_then_Close_ends_twice :
    otelhttp.Transport.RoundTrip Sample.lib { filters := [], metadataOnly := false }
        Sample.getNoBody { bodyReads := [], res := some Sample.okJSON, err := none } =
      some (otelhttp.RoundTripResult.sent Sample.okJSON
        { span := [SpanEvent.SetAttributes [⟨"http.request.headers", AttrValue.text "{}"⟩],
                   SpanEvent.SetAttributes [], SpanEvent.SetAttributes [],
                   SpanEvent.SetStatus Code.Unset ""],
          body := some { isWriter := false }, contentType := "application/json" } false) ∧
    (otelhttp.wrappedBody.run Sample.lib
        { span := [SpanEvent.SetAttributes [⟨"http.request.headers", AttrValue.text "{}"⟩],
                   SpanEvent.SetAttributes [], SpanEvent.SetAttributes [],
                   SpanEvent.SetStatus Code.Unset ""],
          body := some { isWriter := false }, contentType := "application/json" }
        [otelhttp.BodyOp.read Sample.readEOF, otelhttp.BodyOp.close none]).map
      (fun wb => Span.endCalls wb.span) = some 2 := by
  constructor <;> decide

/-- C7. When no filter rejects the request and the base round tripper returns a
non-nil error `err`, `RoundTrip` returns the pair `(res, err)` of the base
round tripper; the span has received, after the calls made before the send,
exactly `RecordError(err)`, `SetStatus(Error, err.Error())` and `End`, so `End`
once, and no attribute `http.response.body` (the `semconv` request attributes
having no such key). -/
theorem RoundTrip_send_failure (lib : otelhttp.Lib) (t : otelhttp.Transport) (r : Request) (out : otelhttp.SendOutcome)
    (err : GoError) (hf : ∀ f ∈ t.filters, f r = true) (herr : out.err = some err)
    (hreads : ∀ x ∈ out.bodyReads, x.n ≤ x.b.cap)
    (hsem : ∀ a ∈ lib.HTTPClientAttributesFromHTTPRequest r, a.Key ≠ "http.response.body") :
    t.RoundTrip lib r out =
      some (otelhttp.RoundTripResult.failed out.res err
        ((if !t.metadataOnly then otelhttp.collectRequestHeaders r [] else []) ++
          [SpanEvent.SetAttributes (lib.HTTPClientAttributesFromHTTPRequest r)] ++
          [SpanEvent.RecordError err, SpanEvent.SetStatus Code.Error err.Error,
           SpanEvent.End])) ∧
    Span.endCalls
        ((if !t.metadataOnly then otelhttp.collectRequestHeaders r [] else []) ++
          [SpanEvent.SetAttributes (lib.HTTPClientAttributesFromHTTPRequest r)] ++
          [SpanEvent.RecordError err, SpanEvent.SetStatus Code.Error err.Error,
           SpanEvent.End]) = 1 ∧
    Span.setsKey
        ((if !t.metadataOnly then otelhttp.collectRequestHeaders r [] else []) ++
          [SpanEvent.SetAttributes (lib.HTTPClientAttributesFromHTTPRequest r)] ++
          [SpanEvent.RecordError err, SpanEvent.SetStatus Code.Error err.Error,
           SpanEvent.End]) "http.response.body" = false := by
  have hsemb : (lib.HTTPClientAttributesFromHTTPRequest r).any
      (fun a => a.Key == "http.response.body") = false := by
    rw [List.any_eq_false]
    intro a ha
    simpa using hsem a ha
  refine ⟨?_, ?_, ?_⟩
  · unfold otelhttp.Transport.RoundTrip
    rw [otelhttp.filters_pass t r hf]
    simp only [Bool.false_eq_true, if_false]
    cases hb : r.hasBody
    · simp [herr]
    · obtain ⟨w1, h1⟩ := otelhttp.bodyWrapper.reads_of_le_cap lib.ParseMediaType out.bodyReads
        { contentType := r.contentType, metadataOnly := t.metadataOnly } hreads
      simp [h1, herr]
  · cases hm : t.metadataOnly
    · have h0 := otelhttp.collectRequestHeaders_endCalls r []
      simp only [Span.endCalls, List.count_nil] at h0
      simp only [Span.endCalls, List.count_append, Bool.not_false, if_true, h0]
      simp [List.count_cons]
    · simp only [Span.endCalls, List.count_append, Bool.not_true, Bool.false_eq_true, if_false]
      simp [List.count_cons]
  · cases hm : t.metadataOnly
    · have h0 := otelhttp.collectRequestHeaders_setsKey r []
      simp only [Span.setsKey, List.any_nil] at h0
      simp only [Span.setsKey, List.any_append, List.any_cons, List.any_nil, SpanEvent.setsKey,
        h0, hsemb, Bool.not_false, if_true, Bool.or_false]
    · simp only [Span.setsKey, List.any_append, List.any_cons, List.any_nil, SpanEvent.setsKey,
        hsemb, Bool.not_true, Bool.false_eq_true, if_false, Bool.or_false]

/-- Witness of C7: a POST whose send fails with `connection refused` after the
base round tripper has read two bytes of the request body. -/
theorem RoundTrip_send_failure_witness :
    otelhttp.Transport.RoundTrip Sample.lib { filters := [fun _ => true], metadataOnly := false }
        Sample.postJSON
        { bodyReads := [Sample.readBraces], res := none,
          err := some (GoError.other "connection refused") } =
      some (otelhttp.RoundTripResult.failed none (GoError.other "connection refused")
        [SpanEvent.SetAttributes [⟨"http.request.headers", AttrValue.text "{}"⟩],
         SpanEvent.SetAttributes [],
         SpanEvent.RecordError (GoError.other "connection refused"),
         SpanEvent.SetStatus Code.Error "connection refused",
         SpanEvent.End]) :=
  (RoundTrip_send_failure Sample.lib { filters := [fun _ => true], metadataOnly := false }
      Sample.postJSON
      { bodyReads := [Sample.readBraces], res := none,
        err := some (GoError.other "connection refused") }
      (GoError.other "connection refused") (by simp) rfl (by decide) (by simp [Sample.lib])).1

/-- C8. For every state of a recorder of `otelmux`, `putRRW` puts it into the
pool with its writer reference cleared, and whatever the pool then hands out
(the recorder just put, another pooled one or a new one), `getRRW(writer, m)`
returns a recorder with `written = false`, `status = 200`, an empty
`responseBody`, `metadataOnly = m` and the writer passed. -/
theorem pool_roundtrip_resets (rrw : otelmux.recordingResponseWriter) (pool : otelmux.Pool)
    (writer : otelmux.Writer) (m : Bool) (pick : Option Nat) :
    otelmux.putRRW rrw pool = { rrw with writer := none } :: pool ∧
    (otelmux.rrwPool.Get (otelmux.putRRW rrw pool) (some 0)).1 = { rrw with writer := none } ∧
    (otelmux.getRRW writer m (otelmux.putRRW rrw pool) pick).1 =
      { writer := some writer, written := false, status := 200, responseBody := [],
        metadataOnly := m } ∧
    (otelmux.getRRW writer m (otelmux.putRRW rrw pool) (some 0)).2 = pool :=
  ⟨rfl, rfl, rfl, rfl⟩

/-- C9, as the code has it. On a request that is not skipped, when the wrapped
handler returns an error `err`, the echo middleware sets the span attribute
`echo.error` to `err.Error()`, hands `err` (and nothing else) to the error
handler `c.Error`, ends the span, and returns nil to its own caller. -/
theorem Middleware_handler_error (lib : otelecho.Lib) (c : otelecho.Call) (e : GoError)
    (hskip : c.skip = false) (herr : c.err = some e)
    (hreads : ∀ x ∈ c.bodyReads, x.n ≤ x.b.cap) :
    ∃ o span, otelecho.Middleware lib c = some o ∧ o.span = some span ∧
      SpanEvent.SetAttributes [⟨"echo.error", AttrValue.text e.Error⟩] ∈ span ∧
      o.handled = [e] ∧ o.ret = none := by
  have hm : SpanEvent.SetAttributes [⟨"echo.error", AttrValue.text e.Error⟩] ∈
      otelecho.collectRequestHeaders c.request
        [SpanEvent.SetAttributes [⟨"echo.error", AttrValue.text e.Error⟩],
         SpanEvent.SetAttributes (lib.HTTPAttributesFromHTTPStatusCode c.status),
         SpanEvent.SetStatus (lib.SpanStatusFromHTTPStatusCodeAndSpanKind c.status).1
           (lib.SpanStatusFromHTTPStatusCodeAndSpanKind c.status).2] :=
    otelecho.collectRequestHeaders_mem _ _ _ (by simp)
  unfold otelecho.Middleware
  simp only [hskip, Bool.false_eq_true, if_false, herr]
  cases hb : c.request.hasBody
  · simp
    split_ifs <;> simp [hm]
  · obtain ⟨w1, h1⟩ := otelecho.bodyWrapper.echo_reads_of_le_cap c.bodyReads
      { metadataOnly := c.metadataOnly } hreads
    simp [h1]
    split_ifs <;> simp [hm]

/-- Witness of C9 as the code has it: a handler that returns the error `boom`. -/
theorem Middleware_handler_error_witness :
    (Sample.echoFailingCall.skip = false ∧
      Sample.echoFailingCall.err = some (GoError.other "boom")) ∧
    ∃ o span, otelecho.Middleware Sample.echoLib Sample.echoFailingCall = some o ∧
      o.span = some span ∧
      SpanEvent.SetAttributes [⟨"echo.error", AttrValue.text (GoError.other "boom").Error⟩] ∈ span ∧
      o.handled = [GoError.other "boom"] ∧ o.ret = none :=
  ⟨⟨rfl, rfl⟩,
   Middleware_handler_error Sample.echoLib Sample.echoFailingCall (GoError.other "boom")
     rfl rfl (by simp [Sample.echoFailingCall])⟩

/-- C9 fails as stated: on a request that is not skipped, a handler that returns
the error `boom` makes the middleware return nil, not `boom`. -/
theorem Middleware_returns_nil_on_handler_error :
    Sample.echoFailingCall.skip = false ∧
    Sample.echoFailingCall.err = some (GoError.other "boom") ∧
    (otelecho.Middleware Sample.echoLib Sample.echoFailingCall).map otelecho.Outcome.ret =
      some none ∧
    (otelecho.Middleware Sample.echoLib Sample.echoFailingCall).map otelecho.Outcome.ret ≠
      some Sample.echoFailingCall.err := by
  refine ⟨rfl, rfl, ?_, ?_⟩ <;> decide

/-- C10. On the recorder that `getRRW` of `otelmux` hands out, and on a
`respWriterWrapper` of `otelhttp` with `wroteHeader = false`, the status
recorded after a sequence of `Write` and `WriteHeader` calls is fixed by the
first call: the code passed when it is `WriteHeader`, 200 when it is `Write`,
whatever the calls after it. -/
theorem status_fixed_by_first_call (P : otelhttp.MediaTypeParser) (skip : otelmux.Classifier)
    (w : otelhttp.respWriterWrapper) (hw : w.wroteHeader = false)
    (writer : otelmux.Writer) (m : Bool) (pool : otelmux.Pool) (pick : Option Nat)
    (op : WriterOp) (ops : List WriterOp) :
    ((otelmux.getRRW writer m pool pick).1.run skip (op :: ops)).status = op.firstStatus ∧
    (w.run P (op :: ops)).statusCode = op.firstStatus := by
  constructor
  · rw [otelmux.getRRW_fst]
    unfold otelmux.recordingResponseWriter.run
    rw [List.foldl_cons]
    cases op with
    | write c =>
      obtain ⟨a1, a2, _⟩ := otelmux.recordingResponseWriter.WriteHook_spec skip
        { writer := some writer, written := false, status := 200, responseBody := [],
          metadataOnly := m } c
      have := otelmux.recordingResponseWriter.run_status_of_written skip ops _ a1
      unfold otelmux.recordingResponseWriter.run at this
      simp only [otelmux.recordingResponseWriter.step]
      rw [this, a2]
      rfl
    | writeHeader code =>
      obtain ⟨a1, a2, _⟩ := otelmux.recordingResponseWriter.WriteHeaderHook_spec
        { writer := some writer, written := false, status := 200, responseBody := [],
          metadataOnly := m } code
      have := otelmux.recordingResponseWriter.run_status_of_written skip ops _ a1
      unfold otelmux.recordingResponseWriter.run at this
      simp only [otelmux.recordingResponseWriter.step]
      rw [this, a2]
      rfl
  · unfold otelhttp.respWriterWrapper.run
    rw [List.foldl_cons]
    cases op with
    | write c =>
      have a1 := otelhttp.respWriterWrapper.Write_wroteHeader P w c
      have a2 := otelhttp.respWriterWrapper.Write_statusCode P w c
      have := otelhttp.respWriterWrapper.run_statusCode_of_wroteHeader P ops _ a1
      unfold otelhttp.respWriterWrapper.run at this
      simp only [otelhttp.respWriterWrapper.step]
      rw [this, a2, hw]
      rfl
    | writeHeader code =>
      have a1 := otelhttp.respWriterWrapper.WriteHeader_wroteHeader w code
      have a2 := otelhttp.respWriterWrapper.WriteHeader_statusCode w code
      have := otelhttp.respWriterWrapper.run_statusCode_of_wroteHeader P ops _ a1
      unfold otelhttp.respWriterWrapper.run at this
      simp only [otelhttp.respWriterWrapper.step]
      rw [this, a2, hw]
      rfl

/-- Witness of C10: `WriteHeader(404)`, then a `Write`, then `WriteHeader(500)`. -/
theorem status_fixed_by_first_call_witness :
    (({} : otelhttp.respWriterWrapper).wroteHeader = false) ∧
    ((otelmux.getRRW 0 false [] none).1.run Sample.allowAll
        [WriterOp.writeHeader 404, WriterOp.write Sample.writeBraces,
         WriterOp.writeHeader 500]).status = 404 ∧
    (({} : otelhttp.respWriterWrapper).run Sample.acceptVerbatim
        [WriterOp.writeHeader 404, WriterOp.write Sample.writeBraces,
         WriterOp.writeHeader 500]).statusCode = 404 :=
  ⟨rfl,
   status_fixed_by_first_call Sample.acceptVerbatim Sample.allowAll {} rfl 0 false [] none
     (WriterOp.writeHeader 404) [WriterOp.write Sample.writeBraces, WriterOp.writeHeader 500]⟩

/-- C11, as the code has it. On a `bodyWrapper` of `otelhttp` that starts with an
empty buffer and a zero counter, after reads that each return
`0 <= n <= len(b)`, the counter `read` is the total of the `n` and the buffer
is not longer than it. On a `respWriterWrapper` that starts with an empty
buffer and a zero counter, after writes that the underlying writer reports as
complete (`n = len(p)`), the counter `written` is the total of the `n` and the
buffer is not longer than it. (Totals within the `int64` range.) -/
theorem buffer_within_byte_count (P : otelhttp.MediaTypeParser)
    (w : otelhttp.bodyWrapper) (rs : List ReadResult)
    (rw : otelhttp.respWriterWrapper) (ops : List WriterOp)
    (hw0 : w.requestBody = []) (hw1 : w.read = 0) (hrs : ∀ r ∈ rs, r.Conforms)
    (hrt : ReadResult.total rs < 2 ^ 63)
    (hrw0 : rw.responseBody = []) (hrw1 : rw.written = 0) (hops : ∀ op ∈ ops, op.Complete)
    (hot : WriterOp.total ops < 2 ^ 63) :
    (∃ w1, otelhttp.bodyWrapper.reads P w rs = some w1 ∧ w1.read = ReadResult.total rs ∧
      (w1.requestBody.length : Int) ≤ w1.read) ∧
    ((rw.run P ops).written = WriterOp.total ops ∧
      ((rw.run P ops).responseBody.length : Int) ≤ (rw.run P ops).written) := by
  constructor
  · obtain ⟨w1, h1, h2, h3⟩ := otelhttp.bodyWrapper.reads_count P rs w (by rw [hw1])
      (by rw [hw0, hw1]; simp) hrs (by rw [hw1]; omega)
    exact ⟨w1, h1, by rw [h2, hw1]; omega, h3⟩
  · obtain ⟨h1, h2⟩ := otelhttp.respWriterWrapper.run_count P ops rw (by rw [hrw1])
      (by rw [hrw0, hrw1]; simp) hops (by rw [hrw1]; omega)
    exact ⟨by rw [h1, hrw1]; omega, h2⟩

/-- Witness of C11 as the code has it: the bytes `{}` read and then `io.EOF`, and
the bytes `{}` written in full. -/
theorem buffer_within_byte_count_witness :
    ((∀ r ∈ [Sample.readBraces, Sample.readEOF], r.Conforms) ∧
      (∀ op ∈ [WriterOp.write Sample.writeBraces], op.Complete)) ∧
    ((({} : otelhttp.respWriterWrapper).run Sample.acceptVerbatim
        [WriterOp.write Sample.writeBraces]).written =
        WriterOp.total [WriterOp.write Sample.writeBraces] ∧
      ((({} : otelhttp.respWriterWrapper).run Sample.acceptVerbatim
        [WriterOp.write Sample.writeBraces]).responseBody.length : Int) ≤
        (({} : otelhttp.respWriterWrapper).run Sample.acceptVerbatim
          [WriterOp.write Sample.writeBraces]).written) :=
  ⟨⟨by decide, by decide⟩,
   (buffer_within_byte_count Sample.acceptVerbatim
      { contentType := "application/json" } [Sample.readBraces, Sample.readEOF]
      {} [WriterOp.write Sample.writeBraces]
      rfl rfl (by decide) (by decide) rfl rfl (by decide) (by decide)).2⟩

/-- C11 fails as stated: a `Write` of two bytes of which the underlying writer
reports one (`0 <= n <= len(p)`) leaves two bytes in the buffer of a fresh
`respWriterWrapper` and one in its counter `written`. -/
theorem short_write_buffer_exceeds_written :
    (∀ op ∈ [WriterOp.write Sample.shortWrite], op.Conforms) ∧
    (({} : otelhttp.respWriterWrapper).run Sample.acceptVerbatim
        [WriterOp.write Sample.shortWrite]).responseBody = [123, 125] ∧
    (({} : otelhttp.respWriterWrapper).run Sample.acceptVerbatim
        [WriterOp.write Sample.shortWrite]).written = 1 ∧
    ¬ (((({} : otelhttp.respWriterWrapper).run Sample.acceptVerbatim
          [WriterOp.write Sample.shortWrite]).responseBody.length : Int) ≤
        (({} : otelhttp.respWriterWrapper).run Sample.acceptVerbatim
          [WriterOp.write Sample.shortWrite]).written) := by
  refine ⟨?_, ?_, ?_, ?_⟩ <;> decide

/-- C12 on the code: for a successful response `101` with `Content-Type:
image/png` whose body is also a writer, `RoundTrip` installs a wrapped body
with an empty content type; reading the bytes `{}` and then `io.EOF` from it
leaves the two bytes in `responseBody` and sets the attribute
`http.response.body`. The same reads on the body of a response with the same
header that is no writer leave the buffer empty and set no such attribute. -/
theorem RoundTrip_upgrade_body_ignores_contentType :
    otelhttp.Transport.RoundTrip Sample.lib { filters := [], metadataOnly := false }
        Sample.getNoBody { bodyReads := [], res := some Sample.upgradePNG, err := none } =
      some (otelhttp.RoundTripResult.sent Sample.upgradePNG
        { span := [SpanEvent.SetAttributes [⟨"http.request.headers", AttrValue.text "{}"⟩],
                   SpanEvent.SetAttributes [], SpanEvent.SetAttributes [],
                   SpanEvent.SetStatus Code.Unset ""],
          body := some { isWriter := true }, contentType := "" } true) ∧
    (otelhttp.wrappedBody.run Sample.lib
        { span := [SpanEvent.SetAttributes [⟨"http.request.headers", AttrValue.text "{}"⟩],
                   SpanEvent.SetAttributes [], SpanEvent.SetAttributes [],
                   SpanEvent.SetStatus Code.Unset ""],
          body := some { isWriter := true }, contentType := "" }
        [otelhttp.BodyOp.read Sample.readBraces, otelhttp.BodyOp.read Sample.readEOF]).map
      (fun wb => (wb.responseBody, Span.setsKey wb.span "http.response.body")) =
      some ([123, 125], true) ∧
    otelhttp.Transport.RoundTrip Sample.lib { filters := [], metadataOnly := false }
        Sample.getNoBody { bodyReads := [], res := some Sample.okPNG, err := none } =
      some (otelhttp.RoundTripResult.sent Sample.okPNG
        { span := [SpanEvent.SetAttributes [⟨"http.request.headers", AttrValue.text "{}"⟩],
                   SpanEvent.SetAttributes [], SpanEvent.SetAttributes [],
                   SpanEvent.SetStatus Code.Unset ""],
          body := some { isWriter := false }, contentType := "image/png" } false) ∧
    (otelhttp.wrappedBody.run Sample.lib
        { span := [SpanEvent.SetAttributes [⟨"http.request.headers", AttrValue.text "{}"⟩],
                   SpanEvent.SetAttributes [], SpanEvent.SetAttributes [],
                   SpanEvent.SetStatus Code.Unset ""],
          body := some { isWriter := false }, contentType := "image/png" }
        [otelhttp.BodyOp.read Sample.readBraces, otelhttp.BodyOp.read Sample.readEOF]).map
      (fun wb => (wb.responseBody, Span.setsKey wb.span "http.response.body")) =
      some ([], false) := by
  refine ⟨?_, ?_, ?_, ?_⟩ <;> decide

/-- C13, as the code has it. The echo middleware does not classify by content
type: on a request that is not skipped, with metadata-only off and a body,
whatever the `Content-Type`, the request-body buffer holds, in order, the
bytes of the conforming reads the handler made, and when that is at least one
byte the attribute `http.request.body` is set from it on the span. -/
theorem Middleware_captures_request_body (lib : otelecho.Lib) (c : otelecho.Call)
    (hskip : c.skip = false) (hm : c.metadataOnly = false) (hbody : c.request.hasBody = true)
    (hreads : ∀ r ∈ c.bodyReads, r.Conforms) :
    ∃ o span, otelecho.Middleware lib c = some o ∧ o.span = some span ∧
      o.bw.requestBody = (c.bodyReads.map ReadResult.bytes).flatten ∧
      ((c.bodyReads.map ReadResult.bytes).flatten ≠ [] →
        SpanEvent.SetAttributes
          [lib.ObfuscateAttributeValue
            ⟨"http.request.body", AttrValue.bytes (c.bodyReads.map ReadResult.bytes).flatten⟩]
          ∈ span) := by
  obtain ⟨w1, h1, h2⟩ := otelecho.bodyWrapper.echo_reads_of_capture c.bodyReads
    { metadataOnly := c.metadataOnly } hm hreads
  simp only [List.nil_append] at h2
  unfold otelecho.Middleware
  simp only [hskip, Bool.false_eq_true, if_false, hbody, if_true, h1]
  refine ⟨_, _, rfl, rfl, h2, ?_⟩
  intro hne
  have hlen : w1.requestBody.length > 0 := by
    rw [h2]
    exact List.length_pos.mpr hne
  simp only [hm, Bool.not_false, if_true, hlen, decide_True]
  rw [h2]
  split_ifs <;> simp

/-- Witness of C13 as the code has it: a POST with `Content-Type: image/png`
whose handler reads the bytes `{}`. -/
theorem Middleware_captures_request_body_witness :
    (Sample.echoImageCall.skip = false ∧ Sample.echoImageCall.metadataOnly = false ∧
      Sample.echoImageCall.request.hasBody = true ∧
      ∀ r ∈ Sample.echoImageCall.bodyReads, r.Conforms) ∧
    ∃ o span, otelecho.Middleware Sample.echoLib Sample.echoImageCall = some o ∧
      o.span = some span ∧
      o.bw.requestBody = (Sample.echoImageCall.bodyReads.map ReadResult.bytes).flatten ∧
      ((Sample.echoImageCall.bodyReads.map ReadResult.bytes).flatten ≠ [] →
        SpanEvent.SetAttributes
          [Sample.echoLib.ObfuscateAttributeValue
            ⟨"http.request.body",
              AttrValue.bytes (Sample.echoImageCall.bodyReads.map ReadResult.bytes).flatten⟩]
          ∈ span) :=
  ⟨⟨rfl, rfl, rfl, by decide⟩,
   Middleware_captures_request_body Sample.echoLib Sample.echoImageCall rfl rfl rfl
     (by decide)⟩

/-- C13 fails as stated: on a POST with `Content-Type: image/png` and
metadata-only off, whose handler reads the bytes `{}` from the body, the
request-body buffer holds the two bytes and the attribute `http.request.body`
is set on the span. -/
theorem Middleware_captures_image_request_body :
    Sample.echoImageCall.metadataOnly = false ∧
    Sample.echoImageCall.request.contentType = "image/png" ∧
    (otelecho.Middleware Sample.echoLib Sample.echoImageCall).map
        (fun o => (o.bw.requestBody, o.span.map fun sp => Span.setsKey sp "http.request.body")) =
      some ([123, 125], some true) := by
  refine ⟨rfl, rfl, ?_⟩
  decide

/-- C14, as the code has it. `wrappedHandler.Invoke` does not read the
metadata-only setting: in every process environment it attaches `faas.event`,
redacted, exactly when the payload is non-empty, and `faas.res`, redacted,
exactly when the handler returned no error and a non-empty response; it
returns the response and the error of the handler (a nil response on error). -/
theorem Invoke_attaches_by_length_only (lib : otellambda.Lib) (h : otellambda.wrappedHandler)
    (env : otellambda.Environment) (payload : List UInt8) (out : otellambda.HandlerResult) :
    (otellambda.wrappedHandler.Invoke lib h env payload out).span =
      h.instrumentor.tracingEnd
        (h.instrumentor.tracingBegin payload ++
          (if payload.length > 0 then
            [SpanEvent.SetAttributes
              [lib.ObfuscateAttributeValue ⟨"faas.event", AttrValue.bytes payload⟩]]
          else []) ++
          (if out.err = none ∧ out.response.length > 0 then
            [SpanEvent.SetAttributes
              [lib.ObfuscateAttributeValue ⟨"faas.res", AttrValue.bytes out.response⟩]]
          else [])) ∧
    (otellambda.wrappedHandler.Invoke lib h env payload out).err = out.err ∧
    (otellambda.wrappedHandler.Invoke lib h env payload out).response =
      (if out.err = none then out.response else []) ∧
    ∀ env2 : otellambda.Environment,
      otellambda.wrappedHandler.Invoke lib h env2 payload out =
        otellambda.wrappedHandler.Invoke lib h env payload out := by
  unfold otellambda.wrappedHandler.Invoke
  rcases he : out.err with _ | e
  · by_cases hp : payload.length > 0 <;> by_cases hr : out.response.length > 0 <;>
      simp [hp, hr]
  · by_cases hp : payload.length > 0 <;> simp [hp]

/-- C14 fails as stated: with `HS_METADATA_ONLY=true` in the environment, a
payload `{}` and a handler that answers `{}`, `Invoke` attaches both
`faas.event` and `faas.res`. -/
theorem Invoke_attaches_under_metadataOnly :
    Sample.envMetadataOnly.metadataOnly = true ∧
    (otellambda.wrappedHandler.Invoke Sample.lambdaLib Sample.lambdaHandler
        Sample.envMetadataOnly [123, 125] { response := [123, 125], err := none }).span =
      [SpanEvent.SetAttributes [⟨"faas.event", AttrValue.bytes [123, 125]⟩],
       SpanEvent.SetAttributes [⟨"faas.res", AttrValue.bytes [123, 125]⟩],
       SpanEvent.End] := by
  constructor <;> decide

/-- C15. After a successful send, reads on the response body none of which
returns `io.EOF`, followed by `Close`, set no attribute `http.response.body`
on the span, whatever the metadata-only flag and whatever the buffer holds;
`Close` ends the span. More generally no call on a wrapped body other than a
`Read` whose underlying read returns `io.EOF` sets an attribute. (The `semconv`
attributes have no key `http.response.body` and the redactor keeps the key.) -/
theorem Close_without_EOF_sets_no_response_body (lib : otelhttp.Lib) (t : otelhttp.Transport)
    (r : Request) (out : otelhttp.SendOutcome) (res : Response) (b : Body)
    (rs : List ReadResult) (closeErr : Option GoError)
    (hf : ∀ f ∈ t.filters, f r = true) (herr : out.err = none) (hres : out.res = some res)
    (hreads : ∀ x ∈ out.bodyReads, x.n ≤ x.b.cap) (hbody : res.Body = some b)
    (hsem1 : ∀ a ∈ lib.HTTPClientAttributesFromHTTPRequest r, a.Key ≠ "http.response.body")
    (hsem2 : ∀ a ∈ lib.HTTPAttributesFromHTTPStatusCode res.StatusCode,
      a.Key ≠ "http.response.body")
    (hobf : ∀ kv, (lib.ObfuscateAttributeValue kv).Key = kv.Key)
    (hrs : ∀ x ∈ rs, x.err ≠ some GoError.EOF) :
    (∃ wb offersWrite wb1,
      t.RoundTrip lib r out = some (otelhttp.RoundTripResult.sent res wb offersWrite) ∧
      otelhttp.wrappedBody.run lib wb
          (rs.map otelhttp.BodyOp.read ++ [otelhttp.BodyOp.close closeErr]) = some wb1 ∧
      Span.setsKey wb1.span "http.response.body" = false ∧
      Span.endCalls wb1.span = 1) ∧
    (∀ (wb wb1 : otelhttp.wrappedBody) (op : otelhttp.BodyOp) (key : String),
      otelhttp.wrappedBody.step lib wb op = some wb1 → op.isEOFRead = false →
      Span.setsKey wb1.span key = Span.setsKey wb.span key) := by
  refine ⟨?_, fun wb wb1 op key h hop => otelhttp.wrappedBody.step_setsKey lib wb wb1 op h hop key⟩
  obtain ⟨span, h1, h2, h3⟩ :=
    otelhttp.RoundTrip_of_sent_span lib t r out res hf herr hres hreads hsem1 hsem2 hobf
  obtain ⟨f1, f2, _, _⟩ :=
    otelhttp.newWrappedBody_fields span res.Body t.metadataOnly res.contentType
  have hnoW : ∀ op ∈ rs.map otelhttp.BodyOp.read ++ [otelhttp.BodyOp.close closeErr],
      op.isWrite = true → b.isWriter = true := by
    intro op hop hw
    rcases List.mem_append.mp hop with hm | hm
    · obtain ⟨x, _, rfl⟩ := List.mem_map.mp hm
      simp [otelhttp.BodyOp.isWrite] at hw
    · rw [List.mem_singleton.mp hm] at hw
      simp [otelhttp.BodyOp.isWrite] at hw
  have hnoE : ∀ op ∈ rs.map otelhttp.BodyOp.read ++ [otelhttp.BodyOp.close closeErr],
      op.isEOFRead = false := by
    intro op hop
    rcases List.mem_append.mp hop with hm | hm
    · obtain ⟨x, hx, rfl⟩ := List.mem_map.mp hm
      simpa [otelhttp.BodyOp.isEOFRead] using hrs x hx
    · rw [List.mem_singleton.mp hm]
      rfl
  have hcount : (rs.map otelhttp.BodyOp.read ++ [otelhttp.BodyOp.close closeErr]).countP
      otelhttp.BodyOp.ends = 1 := by
    rw [List.countP_append]
    have : (rs.map otelhttp.BodyOp.read).countP otelhttp.BodyOp.ends = 0 := by
      rw [List.countP_eq_zero]
      intro op hop
      obtain ⟨x, hx, rfl⟩ := List.mem_map.mp hop
      simpa [otelhttp.BodyOp.ends] using hrs x hx
    rw [this]
    rfl
  obtain ⟨wb1, hrun⟩ := otelhttp.wrappedBody.run_isSome lib _
    (otelhttp.newWrappedBody span res.Body t.metadataOnly res.contentType).1 b
    (f2.trans hbody) hnoW
  have hkey := otelhttp.wrappedBody.run_setsKey lib _ "http.response.body" _ wb1 hrun hnoE
  have hend := (otelhttp.wrappedBody.run_spec lib _ _ wb1 hrun).2.2.2.1
  rw [f1] at hkey hend
  exact ⟨_, _, wb1, h1, hrun, hkey.trans h3, by rw [hend, h2, hcount]⟩

/-- Witness of C15: with metadata-only off, a response `200` with a JSON body
from which the bytes `{}` are read, then `Close`; the buffer holds the two
bytes and the span has no attribute `http.response.body`. -/
theorem Close_without_EOF_sets_no_response_body_witness :
    (otelhttp.wrappedBody.run Sample.lib
        { span := [SpanEvent.SetAttributes [⟨"http.request.headers", AttrValue.text "{}"⟩],
                   SpanEvent.SetAttributes [], SpanEvent.SetAttributes [],
                   SpanEvent.SetStatus Code.Unset ""],
          body := some { isWriter := false }, contentType := "application/json" }
        [otelhttp.BodyOp.read Sample.readBraces, otelhttp.BodyOp.close none]).map
      (fun wb => (wb.responseBody, Span.setsKey wb.span "http.response.body")) =
      some ([123, 125], false) ∧
    ∃ wb offersWrite wb1,
      otelhttp.Transport.RoundTrip Sample.lib { filters := [], metadataOnly := false }
          Sample.getNoBody { bodyReads := [], res := some Sample.okJSON, err := none } =
        some (otelhttp.RoundTripResult.sent Sample.okJSON wb offersWrite) ∧
      otelhttp.wrappedBody.run Sample.lib wb
          ([Sample.readBraces].map otelhttp.BodyOp.read ++ [otelhttp.BodyOp.close none]) =
        some wb1 ∧
      Span.setsKey wb1.span "http.response.body" = false ∧
      Span.endCalls wb1.span = 1 :=
  ⟨by decide,
   (Close_without_EOF_sets_no_response_body Sample.lib { filters := [], metadataOnly := false }
      Sample.getNoBody { bodyReads := [], res := some Sample.okJSON, err := none } Sample.okJSON
      { isWriter := false } [Sample.readBraces] none
      (by simp) rfl rfl (by simp) rfl (by simp [Sample.lib]) (by simp [Sample.lib])
      (fun _ => rfl) (by decide)).1⟩

end Otel
